import Mathlib

/-!
A shallow embedding of the report-acquisition core of the
`web-vitals-report` repository (files `src/js/utils.js`, the updated
`api.js` shipped as `src/unnamed/part_001`, and the `Progress` class in
`src/unnamed/part_003`), together with proofs settling the frozen claims
about it.

Modelling conventions, used throughout and noted again at each definition
where they matter:

* Calendar dates ("YYYY-MM-DD" strings in the source, which compare
  lexicographically, i.e. chronologically) are modelled as day numbers
  (`Nat`); `toISODate`, a pure string reformatting, is the identity on day
  numbers.
* The asynchronous control flow is sequentialised: a `Promise.all` over a
  list runs its members in list order, and a `setTimeout(f, 0)` deferral
  of a progress-counter adjustment is applied at the deferral site.  Row
  results, error propagation, cache contents and the cacheable-row set do
  not depend on the interleaving; only the transient order of
  progress-counter updates does, and no claim below depends on it.
* Fallible code returns `Except ApiError`; a JS `throw`/rejected promise
  is the `.error` case.  `Promise.all` rejects with its first rejection;
  sequentialised, later members are simply not run.
* The `WeakSet` of cacheable rows is keyed by object identity; rows carry
  a model-level identity `rid` and the set holds `rid`s, so that the
  in-place mutations the source performs on a row after marking it do not
  change its membership.
* External collaborators are an explicit environment `Env`: the network
  (`fetch`, indexed by the global fetch sequence number so that a retry
  can see a different response), the current date (`today`), the
  module-level segment-name map (`segmentIdByName`), the floating-point
  sample-rate descaling `Math.round(value * sampleRate)` (`descale`,
  opaque because no claim depends on its arithmetic), the
  `get('meta:viewId').avgRowsPerDay` statistic, and whether IndexedDB
  operations succeed (`dbOk`).
* Unbounded recursion over re-planned date ranges is paced by an explicit
  `fuel : Nat`; exhausted fuel is the distinguished error `.outOfFuel`.
  Every claim is quantified over all fuels or holds for every result.
-/

/-! ## String literals of the source (named so they can be reused) -/

def smallSamplingLevel : String := "SMALL"

def gaSegmentDimension : String := "ga:segment"

def defaultSamplingLevel : String := "DEFAULT"

def rowLimitExceededCode : String := "row_limit_exceeded"

def srcCache : String := "cache"

def srcNetwork : String := "network"

def srcMixed : String := "mixed"

/-! ## Data model -/

/-- A date range as in `reportRequest.dateRanges[0]`; dates are day numbers. -/
structure DateRange where
  startDate : Nat
  endDate : Nat
deriving Repr, DecidableEq

/-- One entry of `reportRequest.segments`; `segmentId` is a string of the
form `gaid::<id>` from which the code strips the first 6 characters. -/
structure Segment where
  segmentId : String
deriving Repr, DecidableEq

/-- The report request object.  `optsHash` stands for
`await hashObj({dimensions, dimensionFilterClauses})`: the SHA-1 digest is
an opaque stable key, modelled as a field carried by the request (two
requests with the same dimensions/filters have the same `optsHash`). -/
structure ReportRequest where
  viewId : Nat
  dateRanges : List DateRange
  segments : List Segment
  dimensions : List String
  samplingLevel : String
  pageToken : Option Nat
  optsHash : Nat
deriving Repr, DecidableEq

/-- A report row.  The source keeps an array `row.dimensions` whose first
two entries — destructured as `const [segmentId, date] = row.dimensions`
in `updateCachedData` — are the segment and the date, and a single metric
value `Number(row.metrics[0].values[0])`.  `rid` is the object identity
used by the `WeakSet` of cacheable rows. -/
structure ReportRow where
  rid : Nat
  segmentDim : Option String
  dateDim : Nat
  metricValue : Int
deriving Repr, DecidableEq

/-- `(r) => Number(r.metrics[0].values[0])`, the comparator handed to
`mergeSortedArrays` by `mergeReportRows`. -/
def reportRowValue (r : ReportRow) : Int :=
  r.metricValue

/-- The part of a Reporting API response the core reads:
`report.data.rowCount`, the sampling indicator
(`Boolean(samplesReadCounts[0] / samplingSpaceSizes[0])`),
`report.data.isDataGolden`, `report.data.rows`, `report.nextPageToken`. -/
structure Report where
  rowCount : Nat
  sampled : Bool
  golden : Bool
  rows : List ReportRow
  nextPageToken : Bool
deriving Repr, DecidableEq

/-- Outcome of one `fetch` of the reporting API: an OK response whose JSON
carries `reports[0]`, or a non-OK response whose JSON carries
`error.code` and `error.message`. -/
inductive FetchResult where
  | httpOk (report : Report)
  | httpErr (code : Int) (msg : String)
deriving Repr, DecidableEq

/-- The errors the core can throw: the internal `SamplingError`, the
internal `CacheReadError`, `WebVitalsError(code)`, the generic
`Error(code + message)` built from a non-OK response, and the
model-only fuel exhaustion. -/
inductive ApiError where
  | sampling
  | cacheRead
  | webVitals (code : String)
  | http (code : Int) (msg : String)
  | outOfFuel
deriving Repr, DecidableEq

/-- One record of the IndexedDB object store `data`, keyed by
`[viewId, segmentId, optsHash, date]` with payload `json` (the serialized
row list). -/
structure CacheEntry where
  viewId : Nat
  segmentId : Option String
  optsHash : Nat
  date : Nat
  json : List ReportRow
deriving Repr, DecidableEq

/-- A key returned by `db.getAllKeys('data', range)`; `key[3]` is the date. -/
structure CacheKey where
  viewId : Nat
  segmentId : Option String
  optsHash : Nat
  date : Nat
deriving Repr, DecidableEq

/-- The module-level mutable state of `api.js`, threaded explicitly:
the progress counter fields it updates, the concurrency counter with its
pending-deferred stack (deferred objects are numbered; `resolvedDeferreds`
logs resolutions in order), the number of `refreshAccessToken()` calls,
the log of issued reporting-API fetches, the identity-keyed cacheable-row
set, the IndexedDB store contents, and a count of read operations issued
against the store. -/
structure St where
  progressCur : Int := 0
  progressTotal : Int := 0
  concurrentRequests : Int := 0
  pendingRequestDeferreds : List Nat := []
  resolvedDeferreds : List Nat := []
  nextDeferredId : Nat := 0
  refreshCount : Nat := 0
  fetchLog : List ReportRequest := []
  cacheableRows : List Nat := []
  db : List CacheEntry := []
  dbReads : Nat := 0
deriving Repr, DecidableEq

def St.init : St := {}

/-- The external collaborators (see the header comment). -/
structure Env where
  fetch : Nat → ReportRequest → FetchResult
  today : Nat
  segmentIdByName : Option String → ReportRequest → Option String
  descale : Int → Int
  avgRowsPerDay : Nat → Nat
  dbOk : Bool

/-! ## utils.js -/

/-- `dateOffset(offset)`: the day `offset` days from today. -/
def dateOffset (env : Env) (offset : Int) : Nat :=
  ((env.today : Int) + offset).toNat

/-- `getDatesInRange(startDate, endDate)`: the consecutive dates from
`startDate` to `endDate` inclusive (empty when `startDate > endDate`),
produced by the source's day-stepping while loop. -/
def getDatesInRange (startDate endDate : Nat) : List Nat :=
  List.range' startDate (endDate + 1 - startDate)

/-- The loop body of `mergeSortedArrays`.  The source runs
`while (merged.length < r1.length + r2.length)`, pushing one element per
iteration: the fuel is the number of pushes still owed, so the wrapper
below starts it at `r1.length + r2.length`.  Each iteration pushes
`r1[i1++]` when `i1 < r1.length && (i2 >= r2.length ||
getValue(r1[i1]) < getValue(r2[i2]))` and `r2[i2++]` otherwise — note the
strict `<`: on a tie the element of `r2` is pushed. -/
def mergeSortedArraysGo (getValue : α → Int) : Nat → List α → List α → List α
  | 0, _, _ => []
  | _ + 1, [], [] => []
  | n + 1, [], b :: t2 => b :: mergeSortedArraysGo getValue n [] t2
  | n + 1, a :: t1, [] => a :: mergeSortedArraysGo getValue n t1 []
  | n + 1, a :: t1, b :: t2 =>
    if getValue a < getValue b then a :: mergeSortedArraysGo getValue n t1 (b :: t2)
    else b :: mergeSortedArraysGo getValue n (a :: t1) t2

/-- `mergeSortedArrays(r1, r2, getValue)` from `utils.js`. -/
def mergeSortedArrays (r1 r2 : List α) (getValue : α → Int) : List α :=
  mergeSortedArraysGo getValue (r1.length + r2.length) r1 r2

/-- `mergeReportRows(r1, r2)`: `if (!(r1 && r2)) return r1 || r2;`
(`undefined` is `none`; an array — even an empty one — is truthy), else
`mergeSortedArrays(r1, r2, (r) => Number(r.metrics[0].values[0]))`. -/
def mergeReportRows :
    Option (List ReportRow) → Option (List ReportRow) → Option (List ReportRow)
  | none, r2 => r2
  | some r1, none => some r1
  | some r1, some r2 => some (mergeSortedArrays r1 r2 reportRowValue)

/-- `mergeReportRows` on two present row arrays (the only way the report
pipeline calls it: both arguments are always arrays there). -/
def mergeRows (r1 r2 : List ReportRow) : List ReportRow :=
  mergeSortedArrays r1 r2 reportRowValue

/-- `rows.reduce((prev, next) => mergeReportRows(prev, next), [])`. -/
def reduceMergeReportRows (rowLists : List (List ReportRow)) : List ReportRow :=
  rowLists.foldl mergeRows []

/-! ## Concurrency admission (api.js lines 181-204, sequential view) -/

def MAX_CONCURRENT_REQUESTS : Int := 7

def incrementConcurrentRequests (s : St) : St :=
  { s with concurrentRequests := s.concurrentRequests + 1 }

/-- `decrementConcurrentRequests()`: decrement, and if the pending list is
non-empty `pop()` (remove from the END — last in, first out) one deferred
and resolve it. -/
def decrementConcurrentRequests (s : St) : St :=
  let s' := { s with concurrentRequests := s.concurrentRequests - 1 }
  match s'.pendingRequestDeferreds.getLast? with
  | none => s'
  | some d =>
    { s' with
      pendingRequestDeferreds := s'.pendingRequestDeferreds.dropLast,
      resolvedDeferreds := s'.resolvedDeferreds ++ [d] }

/-- `concurrentRequestsCountLessThanMax()`: return immediately when the
counter is within the ceiling, otherwise push a fresh deferred on the
pending list (the caller then awaits its promise). -/
def concurrentRequestsCountLessThanMax (s : St) : St :=
  if s.concurrentRequests ≤ MAX_CONCURRENT_REQUESTS then s
  else
    { s with
      pendingRequestDeferreds := s.pendingRequestDeferreds ++ [s.nextDeferredId],
      nextDeferredId := s.nextDeferredId + 1 }

/-- `makeReportingAPIRequest(reportRequest, signal)` (lines 206-244):
inside `try { increment; await gate; fetch; on non-OK 401 refresh the
token and fetch once more; throw on a (still) non-OK response } finally
{ decrement }`.  `env.fetch` is indexed by the global fetch sequence
number (the current length of the fetch log). -/
def makeReportingAPIRequest (env : Env) (req : ReportRequest) (s : St) :
    Except ApiError Report × St :=
  let s1 := concurrentRequestsCountLessThanMax (incrementConcurrentRequests s)
  let s2 := { s1 with fetchLog := s1.fetchLog ++ [req] }
  match env.fetch s1.fetchLog.length req with
  | .httpOk report => (.ok report, decrementConcurrentRequests s2)
  | .httpErr code msg =>
    if code = 401 then
      -- refreshAccessToken(); then the one retry
      let s3 := { s2 with refreshCount := s2.refreshCount + 1 }
      let s4 := { s3 with fetchLog := s3.fetchLog ++ [req] }
      match env.fetch s3.fetchLog.length req with
      | .httpOk report => (.ok report, decrementConcurrentRequests s4)
      | .httpErr code2 msg2 =>
        (.error (.http code2 msg2), decrementConcurrentRequests s4)
    else (.error (.http code msg), decrementConcurrentRequests s2)

/-! ## getReportRowsFromAPI and its recursion (api.js lines 246-402, 619-645) -/

def PAGE_SIZE : Nat := 100000

/-- The page-request builder (lines 349-356): starting from the first
page's row count, clone the request with `pageToken = String(rowCount)`
and step by `PAGE_SIZE` while `rowCount < totalRows`. -/
def buildPageRequests (req : ReportRequest) (rowCount totalRows : Nat) :
    List ReportRequest :=
  (List.range ((totalRows - rowCount + PAGE_SIZE - 1) / PAGE_SIZE)).map fun i =>
    { req with pageToken := some (rowCount + i * PAGE_SIZE) }

/-- The `Promise.all` over the page requests (lines 360-365), each page
bumping `progress.cur`. -/
def fetchPages (env : Env) : List ReportRequest → St → Except ApiError (List Report) × St
  | [], s => (.ok [], s)
  | req :: rest, s =>
    match makeReportingAPIRequest env req s with
    | (.error e, s') => (.error e, s')
    | (.ok page, s') =>
      let s' := { s' with progressCur := s'.progressCur + 1 }
      match fetchPages env rest s' with
      | (.error e, s'') => (.error e, s'')
      | (.ok pages, s'') => (.ok (page :: pages), s'')

/-- `reportRequest.dimensions.findIndex((dim) => dim.name === 'ga:segment')`,
as an `Option` instead of `-1`. -/
def segmentDimensionIndex (req : ReportRequest) : Option Nat :=
  req.dimensions.findIdx? (· = gaSegmentDimension)

/-- The body of the per-row normalisation loop (lines 374-399): mark the
row cacheable when the report is golden and not sampled; undo the
sample-rate scaling when sampled; replace the segment-name dimension by
the segment id when the request has a `ga:segment` dimension. -/
def processRow (env : Env) (req : ReportRequest) (golden sampled : Bool)
    (row : ReportRow) (s : St) : ReportRow × St :=
  let s := if golden && !sampled then
      { s with cacheableRows := s.cacheableRows ++ [row.rid] }
    else s
  let row := if sampled then { row with metricValue := env.descale row.metricValue }
    else row
  let row :=
    match segmentDimensionIndex req with
    | some _ => { row with segmentDim := env.segmentIdByName row.segmentDim req }
    | none => row
  (row, s)

def processRows (env : Env) (req : ReportRequest) (golden sampled : Bool) :
    List ReportRow → St → List ReportRow × St
  | [], s => ([], s)
  | row :: rest, s =>
    let rs := processRow env req golden sampled row s
    let rest' := processRows env req golden sampled rest rs.2
    (rs.1 :: rest'.1, rest'.2)

/-- `getReportRequestForDates(reportRequest, dateRange)`: clone with the
single given date range. -/
def getReportRequestForDates (req : ReportRequest) (dateRange : DateRange) :
    ReportRequest :=
  { req with dateRanges := [dateRange] }

/-- `reportRequest.dateRanges[0]`. -/
def dr0 (req : ReportRequest) : DateRange :=
  req.dateRanges.headD ⟨0, 0⟩

/-- The row-merging fold at the end of `getReportRowsByDatesFromAPI`
(line 630), applied to the `Promise.all` result. -/
def mergedByDates (r : Except ApiError (List (List ReportRow)) × St) :
    Except ApiError (List ReportRow) × St :=
  match r with
  | (.error e, s) => (.error e, s)
  | (.ok rowLists, s) => (.ok (reduceMergeReportRows rowLists), s)

/-- The `Promise.all` of `getReportRowsByDatesFromAPI` (lines 621-628):
one `getReportRowsFromAPI` call per date range, on the request cloned to
that range, sequentialised in list order.  Parameterised by the
recursive entry point `fromF`. -/
def getReportRowsByDatesBody
    (fromF : ReportRequest → St → Except ApiError (List ReportRow) × St)
    (req : ReportRequest) :
    List DateRange → St → Except ApiError (List (List ReportRow)) × St
  | [], s => (.ok [], s)
  | dateRange :: rest, s =>
    match fromF (getReportRequestForDates req dateRange) s with
    | (.error e, s') => (.error e, s')
    | (.ok rows, s') =>
      match getReportRowsByDatesBody fromF req rest s' with
      | (.error e, s'') => (.error e, s'')
      | (.ok rowLists, s'') => (.ok (rows :: rowLists), s'')

/-- The body of `getReportRowsFromAPI(reportRequest, controller)`
(lines 253-402), parameterised by the `getReportRowsByDatesFromAPI` it
recurses through (`byDates`, already including the merging fold).
`orig` carries the module globals `originalStartDate`/`originalEndDate`.

Control flow, in source order:
1. lines 265-280: a non-small multi-day range reaching yesterday is split
   into `[start, today-2]`, `[yesterday, yesterday]` and, when the range
   reaches today, `[today, end]`;
2. line 282: `progress.total += datesInRange.length`;
3. lines 284-294: the fetch; an error aborts the controller and is
   rethrown (the AbortError swallowing only matters when a sibling
   already failed, which the sequentialised model cuts off earlier);
4. line 311: a multi-day report that is auto-sampled or declares ≥ 1e6
   rows is re-planned one sub-range per day (the deferred
   `progress.total -= datesInRange.length` applied here);
5. line 325: a single-day auto-sampled report inside an originally
   multi-day request raises `SamplingError`;
6. line 335: ≥ 1e6 rows still → `WebVitalsError('row_limit_exceeded')`;
7. lines 339-372: collect the rows, `progress.cur += datesInRange.length`,
   fetch the remaining pages in parallel when `nextPageToken` is set;
8. lines 374-399: the per-row normalisation loop. -/
def getReportRowsFromAPIBody (env : Env) (orig : DateRange)
    (byDates : ReportRequest → List DateRange → St →
      Except ApiError (List ReportRow) × St)
    (req : ReportRequest) (s : St) : Except ApiError (List ReportRow) × St :=
  if (dr0 req).endDate ≠ (dr0 req).startDate ∧
      req.samplingLevel ≠ smallSamplingLevel ∧
      (dr0 req).startDate < dateOffset env (-1) ∧
      dateOffset env (-1) ≤ (dr0 req).endDate then
    byDates req
      ([⟨(dr0 req).startDate, dateOffset env (-2)⟩,
        ⟨dateOffset env (-1), dateOffset env (-1)⟩] ++
        (if dateOffset env 0 ≤ (dr0 req).endDate then
          [⟨dateOffset env 0, (dr0 req).endDate⟩] else []))
      s
  else
    match makeReportingAPIRequest env req
        { s with progressTotal := s.progressTotal +
            ((getDatesInRange (dr0 req).startDate (dr0 req).endDate).length : Int) } with
    | (.error e, s') => (.error e, s')
    | (.ok report, s') =>
      if (dr0 req).startDate ≠ (dr0 req).endDate ∧
          ((report.sampled = true ∧ req.samplingLevel ≠ smallSamplingLevel) ∨
            1000000 ≤ report.rowCount) then
        byDates req
          ((getDatesInRange (dr0 req).startDate (dr0 req).endDate).map fun d => ⟨d, d⟩)
          { s' with progressTotal := s'.progressTotal -
              ((getDatesInRange (dr0 req).startDate (dr0 req).endDate).length : Int) }
      else if (report.sampled = true ∧ req.samplingLevel ≠ smallSamplingLevel) ∧
          (dr0 req).startDate = (dr0 req).endDate ∧ orig.startDate ≠ orig.endDate then
        (.error .sampling,
          { s' with progressTotal := s'.progressTotal -
              ((getDatesInRange (dr0 req).startDate (dr0 req).endDate).length : Int) })
      else if 1000000 ≤ report.rowCount then
        (.error (.webVitals rowLimitExceededCode), s')
      else
        match
          (if report.nextPageToken then
            match fetchPages env (buildPageRequests req report.rows.length report.rowCount)
                { s' with
                  progressCur := s'.progressCur +
                    ((getDatesInRange (dr0 req).startDate (dr0 req).endDate).length : Int),
                  progressTotal := s'.progressTotal +
                    ((buildPageRequests req report.rows.length report.rowCount).length : Int) } with
            | (.error e, t) => (.error e, t)
            | (.ok pages, t) =>
              (.ok (report.rows ++ pages.foldl (fun acc p => acc ++ p.rows) []), t)
          else ((.ok report.rows : Except ApiError (List ReportRow)),
            { s' with
              progressCur := s'.progressCur +
                ((getDatesInRange (dr0 req).startDate (dr0 req).endDate).length : Int) })) with
        | (.error e, t) => (.error e, t)
        | (.ok allRows, t) =>
          (.ok (processRows env req report.golden report.sampled allRows t).1,
           (processRows env req report.golden report.sampled allRows t).2)

/-- The fuelled pair (`getReportRowsFromAPI`, the `Promise.all` part of
`getReportRowsByDatesFromAPI`): the mutual recursion of the source, tied
through an explicit fuel so that every definition is structurally
recursive.  At fuel `n+1` the from-API function re-plans through the
by-dates function at fuel `n` (which calls back into the from-API
function at fuel `n+1`'s predecessor level, mirroring one re-planning
step per fuel unit). -/
def apiFns (env : Env) (orig : DateRange) :
    Nat →
      (ReportRequest → St → Except ApiError (List ReportRow) × St) ×
       (ReportRequest → List DateRange → St →
         Except ApiError (List (List ReportRow)) × St)
  | 0 =>
    (fun _ s => (.error .outOfFuel, s),
     getReportRowsByDatesBody fun _ s => (.error .outOfFuel, s))
  | fuel + 1 =>
    let prev := apiFns env orig fuel
    let fromF := fun req s =>
      getReportRowsFromAPIBody env orig
        (fun req' ranges t => mergedByDates (prev.2 req' ranges t)) req s
    (fromF, getReportRowsByDatesBody fromF)

/-- `getReportRowsFromAPI(reportRequest, controller)` at the given fuel. -/
def getReportRowsFromAPI (env : Env) (orig : DateRange) (fuel : Nat)
    (req : ReportRequest) (s : St) : Except ApiError (List ReportRow) × St :=
  (apiFns env orig fuel).1 req s

/-- `getReportRowsByDatesFromAPI(reportRequest, dateRanges, controller)`:
the per-range `Promise.all` followed by the merging fold. -/
def getReportRowsByDatesFromAPI (env : Env) (orig : DateRange) (fuel : Nat)
    (req : ReportRequest) (dateRanges : List DateRange) (s : St) :
    Except ApiError (List ReportRow) × St :=
  mergedByDates ((apiFns env orig fuel).2 req dateRanges s)

/-! ## The caller-facing result -/

/-- What `getReport` resolves with: `{rows, meta: {source, isSampled}}`,
with the two `meta` fields inlined; a JS `undefined` field is `none`. -/
structure ReportResult where
  rows : List ReportRow
  source : Option String
  isSampled : Option Bool
deriving Repr, DecidableEq

/-- `getReportFromAPI(reportRequest, controller)` (lines 246-251). -/
def getReportFromAPI (env : Env) (orig : DateRange) (fuel : Nat)
    (req : ReportRequest) (s : St) : Except ApiError ReportResult × St :=
  match getReportRowsFromAPI env orig fuel req s with
  | (.error e, s') => (.error e, s')
  | (.ok rows, s') =>
    (.ok { rows := rows,
           source := some srcNetwork,
           isSampled := some (req.samplingLevel = smallSamplingLevel : Bool) }, s')

/-! ## The cache store (api.js lines 404-494) -/

/-- `handleDBError(error)`: report the error and clear the `data` store. -/
def handleDBError (s : St) : St :=
  { s with db := [] }

/-- `getCacheKeys(viewId, segmentId, optsHash, startDate, endDate)`
(lines 445-452): the keys of the store's records whose composite key lies
in `IDBKeyRange.bound([v,s,h,startDate],[v,s,h,endDate])` — with the
first three components pinned, exactly the records of that view, segment
and query shape whose date lies in the range.  Counts as one read. -/
def getCacheKeys (vid : Nat) (segmentId : String) (optsHash : Nat)
    (startDate endDate : Nat) (s : St) : List CacheKey × St :=
  let keys :=
    (s.db.filter fun e =>
      e.viewId = vid ∧ e.segmentId = some segmentId ∧ e.optsHash = optsHash ∧
        startDate ≤ e.date ∧ e.date ≤ endDate).map
      fun e => ⟨e.viewId, e.segmentId, e.optsHash, e.date⟩
  (keys, { s with dbReads := s.dbReads + 1 })

/-- `db.get('data', key)` by exact composite key. -/
def dbGet (db : List CacheEntry) (k : CacheKey) : Option CacheEntry :=
  db.find? fun e =>
    e.viewId = k.viewId ∧ e.segmentId = k.segmentId ∧
      e.optsHash = k.optsHash ∧ e.date = k.date

/-- `db.put('data', entry)`: replace the record with the same composite
key, if any, by the new one. -/
def dbPut (db : List CacheEntry) (e : CacheEntry) : List CacheEntry :=
  (db.filter fun x =>
    ¬(x.viewId = e.viewId ∧ x.segmentId = e.segmentId ∧
        x.optsHash = e.optsHash ∧ x.date = e.date)) ++ [e]

/-- The read loop of `getCachedData` (lines 570-580): each `db.get` bumps
`progress.cur` and merges the entry's rows into the running report; a
missing record makes the JS `value.json` access throw inside the `try`. -/
def getCachedDataGo : List CacheKey → List ReportRow → St →
    Except ApiError (List ReportRow) × St
  | [], acc, s => (.ok acc, s)
  | k :: rest, acc, s =>
    match dbGet s.db k with
    | none => (.error .cacheRead, s)
    | some e =>
      let s := { s with progressCur := s.progressCur + 1 }
      getCachedDataGo rest (mergeRows acc e.json) s

/-- `getCachedData(usableKeys)` (lines 564-586): add the keys to
`progress.total`, then read and merge them; any failure becomes a
`CacheReadError`. -/
def getCachedData (env : Env) (usableKeys : List CacheKey) (s : St) :
    Except ApiError (List ReportRow) × St :=
  let s := { s with progressTotal := s.progressTotal + usableKeys.length }
  if env.dbOk then getCachedDataGo usableKeys [] s
  else (.error .cacheRead, s)

/-- `toISODate` reformats a `YYYYMMDD` string as `YYYY-MM-DD`; on day
numbers it is the identity. -/
def toISODate (d : Nat) : Nat := d

/-- Insertion into the inner `Map` of `updateCachedData` (per-segment row
lists, insertion-ordered, appending at the end). -/
def addRowToSegmentData (segmentId : Option String) (row : ReportRow) :
    List (Option String × List ReportRow) → List (Option String × List ReportRow)
  | [] => [(segmentId, [row])]
  | (sid, rws) :: rest =>
    if sid = segmentId then (sid, rws ++ [row]) :: rest
    else (sid, rws) :: addRowToSegmentData segmentId row rest

/-- Insertion into the outer `Map` of `updateCachedData` (per-date). -/
def addRowToDateData (date : Nat) (segmentId : Option String) (row : ReportRow) :
    List (Nat × List (Option String × List ReportRow)) →
      List (Nat × List (Option String × List ReportRow))
  | [] => [(date, [(segmentId, [row])])]
  | (d, segs) :: rest =>
    if d = date then (d, addRowToSegmentData segmentId row segs) :: rest
    else (d, segs) :: addRowToDateData date segmentId row rest

/-- `updateCachedData(viewId, optsHash, rows)` (lines 454-494): group the
rows that are marked cacheable by date and segment (reading
`const [segmentId, date] = row.dimensions`), then `db.put` one record per
non-empty group. -/
def updateCachedData (vid : Nat) (optsHash : Nat) (rows : List ReportRow)
    (s : St) : St :=
  let dateData := rows.foldl (fun m row =>
      if row.rid ∈ s.cacheableRows then
        addRowToDateData row.dateDim row.segmentDim row m
      else m) []
  { s with
    db := dateData.foldl (fun db dsegs =>
      dsegs.2.foldl (fun db srws =>
        if srws.2.length ≠ 0 then
          dbPut db ⟨vid, srws.1, optsHash, toISODate dsegs.1, srws.2⟩
        else db) db) s.db }

/-! ## The orchestrator (api.js lines 496-617, 137-176) -/

/-- `sourcesNameMap` over `sources = {CACHE: 1, NETWORK: 2, MIXED: 3}`;
any other index reads as `undefined`. -/
def sourcesNameMap : Nat → Option String
  | 1 => some srcCache
  | 2 => some srcNetwork
  | 3 => some srcMixed
  | _ => none

/-- The `Promise.all(segments.map(({segmentId}) => getCacheKeys(viewId,
segmentId.slice(6), optsHash, startDate, endDate)))` of lines 512-515. -/
def collectCacheKeys (vid : Nat) (optsHash : Nat) (startDate endDate : Nat) :
    List Segment → St → List (List CacheKey) × St
  | [], s => ([], s)
  | seg :: rest, s =>
    let ks := getCacheKeys vid (seg.segmentId.drop 6) optsHash startDate endDate s
    let kss := collectCacheKeys vid optsHash startDate endDate rest ks.2
    (ks.1 :: kss.1, kss.2)

/-- The `cachedDates`/`usableKeys` accumulation of lines 520-531: walk the
found keys, group them by date, and the moment a date's key count reaches
the number of requested segments append that date's keys to the usable
set. -/
def buildCachedDates (segCount : Nat) :
    List CacheKey → List (Nat × List CacheKey) → List CacheKey →
      List (Nat × List CacheKey) × List CacheKey
  | [], cachedDates, usableKeys => (cachedDates, usableKeys)
  | key :: rest, cachedDates, usableKeys =>
    let cachedDates' :=
      match cachedDates.find? (fun p => p.1 = key.date) with
      | none => cachedDates ++ [(key.date, [key])]
      | some _ => cachedDates.map fun p =>
          if p.1 = key.date then (p.1, p.2 ++ [key]) else p
    let dateKeys :=
      ((cachedDates'.find? (fun p => p.1 = key.date)).map Prod.snd).getD []
    let usableKeys' :=
      if dateKeys.length = segCount then usableKeys ++ dateKeys else usableKeys
    buildCachedDates segCount rest cachedDates' usableKeys'

/-- `cacheDates[date]?.length` for `getMissingRanges`. -/
def lookupDateKeyCount (cacheDates : List (Nat × List CacheKey)) (d : Nat) :
    Option Nat :=
  (cacheDates.find? fun p => p.1 = d).map fun p => p.2.length

/-- The `forEach` of `getMissingRanges` (lines 595-615), with the mutable
`missingRangeStart`/`missingRangeEnd` as explicit `Option` state: a date
is missing when the cached key count for it differs from the segment
count; contiguous missing dates are closed into a range at the first
non-missing date or at the end of the walk. -/
def getMissingRangesGo (segCount : Nat) (cacheDates : List (Nat × List CacheKey)) :
    List Nat → Option Nat → Option Nat → List DateRange → List DateRange
  | [], _, _, acc => acc
  | date :: rest, mStart, mEnd, acc =>
    let missingDateData := lookupDateKeyCount cacheDates date ≠ some segCount
    let mStart' := if missingDateData then
        (if mStart = none then some date else mStart) else mStart
    let mEnd' := if missingDateData then some date else mEnd
    if ¬missingDateData ∨ rest = [] then
      match mStart', mEnd' with
      | some a, some b =>
        getMissingRangesGo segCount cacheDates rest none none (acc ++ [⟨a, b⟩])
      | _, _ => getMissingRangesGo segCount cacheDates rest mStart' mEnd' acc
    else getMissingRangesGo segCount cacheDates rest mStart' mEnd' acc

/-- `getMissingRanges(reportRequest, cacheDates)` (lines 588-617). -/
def getMissingRanges (req : ReportRequest)
    (cacheDates : List (Nat × List CacheKey)) : List DateRange :=
  getMissingRangesGo req.segments.length cacheDates
    (getDatesInRange (dr0 req).startDate (dr0 req).endDate) none none []

/-- The per-day re-planning of the missing ranges (lines 537-546), applied
when the view's historical `avgRowsPerDay` exceeds 100 000. -/
def perDayRanges (ranges : List DateRange) : List DateRange :=
  ranges.foldl (fun acc r =>
    acc ++ (getDatesInRange r.startDate r.endDate).map fun d => ⟨d, d⟩) []

/-- `getReportFromCacheAndAPI(reportRequest, controller)` (lines 505-562):
scan the cache for usable per-day keys (a thrown scan error is handled by
`handleDBError` and leaves the found keys empty), compute the missing
ranges (per-day for high-volume views), fetch the missing ranges from the
network and read the usable keys (`Promise.all`, sequentialised network
first), merge, classify the source, fire-and-forget the cache write, and
resolve with `{rows, meta: {source}}` — note: no `isSampled` field. -/
def getReportFromCacheAndAPI (env : Env) (orig : DateRange) (fuel : Nat)
    (req : ReportRequest) (s : St) : Except ApiError ReportResult × St :=
  let startDate := (dr0 req).startDate
  let endDate := (dr0 req).endDate
  let optsHash := req.optsHash
  let fk : List (List CacheKey) × St :=
    if env.dbOk then collectCacheKeys req.viewId optsHash startDate endDate req.segments s
    else ([], handleDBError s)
  let cu := buildCachedDates req.segments.length fk.1.flatten [] []
  let missingRanges := getMissingRanges req cu.1
  let missingRanges :=
    if 100000 < env.avgRowsPerDay req.viewId then perDayRanges missingRanges
    else missingRanges
  match getReportRowsByDatesFromAPI env orig fuel req missingRanges fk.2 with
  | (.error e, s') => (.error e, s')
  | (.ok networkReport, s') =>
    match getCachedData env cu.2 s' with
    | (.error e, s'') => (.error e, s'')
    | (.ok cachedReport, s'') =>
      let rows := mergeRows cachedReport networkReport
      let source := sourcesNameMap
        ((if missingRanges.length ≠ 0 then 2 else 0) +
          (if cachedReport.length ≠ 0 then 1 else 0))
      let s'' := updateCachedData req.viewId optsHash networkReport s''
      (.ok { rows := rows, source := source, isSampled := none }, s'')

/-- The `try` body of `getReport` (lines 144-159): skip the cache entirely
for an explicitly small-sampled request; otherwise try cache-and-API, and
on a `CacheReadError` fall through — after `handleDBError` — to the pure
API path. -/
def getReportAttempt (env : Env) (fuel : Nat) (req : ReportRequest) (s : St) :
    Except ApiError ReportResult × St :=
  let orig := dr0 req
  if req.samplingLevel ≠ smallSamplingLevel then
    match getReportFromCacheAndAPI env orig fuel req s with
    | (.error .cacheRead, s') => getReportFromAPI env orig fuel req (handleDBError s')
    | r => r
  else getReportFromAPI env orig fuel req s

/-- `getReport(reportRequest)` (lines 137-176): run the attempt; a
`SamplingError` — and only a `SamplingError` — is caught and converted
into one re-issue of a clone of the original request (original date
ranges included) with `samplingLevel = 'SMALL'` through the pure API
path. -/
def getReport (env : Env) (fuel : Nat) (req : ReportRequest) (s : St) :
    Except ApiError ReportResult × St :=
  match getReportAttempt env fuel req s with
  | (.error .sampling, s') =>
    getReportFromAPI env (dr0 req) fuel
      { req with samplingLevel := smallSamplingLevel } s'
  | r => r

/-! ## The Progress class (src/unnamed/part_003 lines 126-175) -/

/-- A JS number as far as the percentage arithmetic can observe it:
`Math.floor`/`Math.min`/`Math.max` over a finite value, `NaN` (from
`0 * 100 / 0`), or `-Infinity` (from a negative numerator over 0;
`+Infinity` never survives the `Math.min(99, ·)`). -/
inductive JsNum where
  | nan
  | neginf
  | num (q : Int)
deriving Repr, DecidableEq

/-- `Math.max` (any `NaN` argument wins). -/
def jsMax : JsNum → JsNum → JsNum
  | .nan, _ => .nan
  | _, .nan => .nan
  | .neginf, y => y
  | x, .neginf => x
  | .num a, .num b => .num (max a b)

/-- The JS `<=` on these values (`false` whenever a `NaN` is involved). -/
def jsLe : JsNum → JsNum → Bool
  | .nan, _ => false
  | _, .nan => false
  | .neginf, _ => true
  | .num _, .neginf => false
  | .num a, .num b => a ≤ b

/-- The JS `<` on these values. -/
def jsLt : JsNum → JsNum → Bool
  | .nan, _ => false
  | _, .nan => false
  | .neginf, .neginf => false
  | .neginf, .num _ => true
  | .num _, .neginf => false
  | .num a, .num b => a < b

/-- The fields of the `Progress` singleton touched by `_updatePercentage`. -/
structure Progress where
  _cur : Int
  _total : Int
  _percentage : JsNum
deriving Repr, DecidableEq

/-- `init()`: `_total = 0; _cur = 0; _percentage = 0`. -/
def Progress.start : Progress :=
  ⟨0, 0, .num 0⟩

/-- `_updatePercentage()`:
`pct = Math.min(99, Math.floor(this._cur * 100 / this._total))`;
`this._percentage = Math.max(this._percentage, pct)`.
With a nonzero total the float division is exact enough for the integer
floor (`Int.fdiv` floors toward `-Infinity`, as `Math.floor` does); with a
zero total the division is `+Infinity` (capped to 99 by the `min`),
`-Infinity`, or, for `0 / 0`, `NaN`. -/
def updatePercentage (p : Progress) : Progress :=
  let pct : JsNum :=
    if p._total ≠ 0 then .num (min 99 ((p._cur * 100).fdiv p._total))
    else if 0 < p._cur then .num 99
    else if p._cur < 0 then .neginf
    else .nan
  { p with _percentage := jsMax p._percentage pct }

/-- A single assignment through one of the two setters (`set cur`,
`set total`), each of which stores the value and recomputes the
percentage. -/
inductive ProgressUpdate where
  | setCur (v : Int)
  | setTotal (v : Int)
deriving Repr, DecidableEq

def applyUpdate (p : Progress) : ProgressUpdate → Progress
  | .setCur v => updatePercentage { p with _cur := v }
  | .setTotal v => updatePercentage { p with _total := v }

/-- The sequence of states reached after each update (excluding the start
state). -/
def progressTrace (p : Progress) : List ProgressUpdate → List Progress
  | [] => []
  | u :: us =>
    let p' := applyUpdate p u
    p' :: progressTrace p' us

/-! ## The admission-control transition system (api.js lines 181-244)

The sequential `St` model above cannot express several
`makeReportingAPIRequest` executions being in flight at once, so the
admission control is additionally modelled as a transition system over
the shared scheduler state.  An execution `enter`s when it runs
`incrementConcurrentRequests()` followed by
`await concurrentRequestsCountLessThanMax()` — it proceeds to its fetch
when the (just-incremented) counter is within the ceiling and queues a
deferred otherwise — and `exit`s when its `finally` block runs
`decrementConcurrentRequests()`, which pops (from the end) and resolves
one pending deferred, admitting that waiter to its fetch. -/

structure SchedState where
  concurrentRequests : Int
  pending : List Nat
  inFlight : List Nat
deriving Repr, DecidableEq

def schedInit : SchedState :=
  ⟨0, [], []⟩

/-- Entry of execution `id`: increment, then either proceed (within the
ceiling) or push a deferred for it at the end of the pending list. -/
def schedEnter (id : Nat) (s : SchedState) : SchedState :=
  let c := s.concurrentRequests + 1
  if c ≤ MAX_CONCURRENT_REQUESTS then ⟨c, s.pending, s.inFlight ++ [id]⟩
  else ⟨c, s.pending ++ [id], s.inFlight⟩

/-- Exit of execution `id` (the `finally`): decrement, and resolve the
most recently queued deferred, if any, whose owner then proceeds to its
fetch. -/
def schedExit (id : Nat) (s : SchedState) : SchedState :=
  let c := s.concurrentRequests - 1
  match s.pending.getLast? with
  | none => ⟨c, s.pending, s.inFlight.erase id⟩
  | some w => ⟨c, s.pending.dropLast, s.inFlight.erase id ++ [w]⟩

/-- The reachable scheduler states: a fresh execution may enter at any
time, and an execution past admission may exit. -/
inductive SchedReachable : SchedState → Prop
  | start : SchedReachable schedInit
  | enter (id : Nat) (s : SchedState) (h : SchedReachable s)
      (hfresh : id ∉ s.pending ∧ id ∉ s.inFlight) :
      SchedReachable (schedEnter id s)
  | exit (id : Nat) (s : SchedState) (h : SchedReachable s)
      (hmem : id ∈ s.inFlight) :
      SchedReachable (schedExit id s)

/-- Rows sorted ascending by the numeric metric value (the order the
upstream API is asked for and `mergeSortedArrays` preserves). -/
def SortedByValue (l : List ReportRow) : Prop :=
  l.Pairwise fun a b => reportRowValue a ≤ reportRowValue b

instance (l : List ReportRow) : Decidable (SortedByValue l) :=
  inferInstanceAs
    (Decidable (l.Pairwise fun a b => reportRowValue a ≤ reportRowValue b))

/-! ## Concrete environments and requests used by witnesses -/

/-- An environment whose fetches always fail with an HTTP 500. -/
def envFail : Env :=
  { fetch := fun _ _ => .httpErr 500 srcNetwork
    today := 10
    segmentIdByName := fun d _ => d
    descale := fun v => v
    avgRowsPerDay := fun _ => 0
    dbOk := true }

/-- A minimal single-day report request. -/
def reqSimple : ReportRequest :=
  { viewId := 1
    dateRanges := [⟨3, 3⟩]
    segments := [{ segmentId := "gaid::abc12" }]
    dimensions := [gaSegmentDimension]
    samplingLevel := defaultSamplingLevel
    pageToken := none
    optsHash := 0 }

def msg401 : String := "Invalid Credentials"

/-- An empty OK report. -/
def reportEmpty : Report :=
  { rowCount := 0, sampled := false, golden := false, rows := [], nextPageToken := false }

/-- An environment whose first fetch fails with a 401 and whose later
fetches succeed with an empty report. -/
def envRetry : Env :=
  { fetch := fun n _ => if n = 0 then .httpErr 401 msg401 else .httpOk reportEmpty
    today := 10
    segmentIdByName := fun d _ => d
    descale := fun v => v
    avgRowsPerDay := fun _ => 0
    dbOk := true }

/-- A sampled small report. -/
def reportSampled : Report :=
  { rowCount := 10, sampled := true, golden := false, rows := [], nextPageToken := false }

/-- An environment whose fetches always return the sampled report. -/
def envSampled : Env :=
  { fetch := fun _ _ => .httpOk reportSampled
    today := 10
    segmentIdByName := fun d _ => d
    descale := fun v => v
    avgRowsPerDay := fun _ => 0
    dbOk := true }

/-- A two-day request (well before yesterday relative to `today = 10`). -/
def reqTwoDay : ReportRequest :=
  { reqSimple with dateRanges := [⟨3, 4⟩] }

/-- A report declaring exactly 999,999 rows. -/
def reportAt999999 : Report :=
  { rowCount := 999999, sampled := false, golden := false, rows := [], nextPageToken := false }

/-- A report declaring exactly 1,000,000 rows. -/
def reportAtLimit : Report :=
  { rowCount := 1000000, sampled := false, golden := false, rows := [], nextPageToken := false }

def envAt999999 : Env :=
  { envSampled with fetch := fun _ _ => .httpOk reportAt999999 }

def envAtLimit : Env :=
  { envSampled with fetch := fun _ _ => .httpOk reportAtLimit }

instance {e a : Type} [DecidableEq e] [DecidableEq a] : DecidableEq (Except e a) := fun
  | .ok x, .ok y => decidable_of_iff (x = y) (by simp)
  | .ok _, .error _ => isFalse (by simp)
  | .error _, .ok _ => isFalse (by simp)
  | .error x, .error y => decidable_of_iff (x = y) (by simp)

/-- The single-day request with forced small sampling. -/
def reqSmall : ReportRequest :=
  { reqSimple with samplingLevel := smallSamplingLevel }

/-- A request whose single date range is empty (start after end). -/
def reqEmptyRange : ReportRequest :=
  { reqSimple with dateRanges := [⟨5, 3⟩] }

/-- The result of a small-sampled network run with no rows. -/
def resNetSmall : ReportResult :=
  { rows := [], source := some srcNetwork, isSampled := some true }

/-! # Supporting lemmas -/

theorem mergeSortedArraysGo_congr (v : α → Int) :
    ∀ (n m : Nat) (l1 l2 : List α), l1.length + l2.length ≤ n →
      l1.length + l2.length ≤ m →
      mergeSortedArraysGo v n l1 l2 = mergeSortedArraysGo v m l1 l2 := by
  intro n
  induction n with
  | zero =>
    intro m l1 l2 h1 h2
    cases l1 with
    | cons a t1 => simp at h1
    | nil =>
      cases l2 with
      | cons b t2 => simp at h1
      | nil => cases m <;> rfl
  | succ n ih =>
    intro m l1 l2 h1 h2
    cases l1 with
    | nil =>
      cases l2 with
      | nil => cases m <;> rfl
      | cons b t2 =>
        cases m with
        | zero => simp at h2
        | succ m =>
          simp only [mergeSortedArraysGo]
          exact congrArg _ (ih m [] t2 (by simp at h1 ⊢ <;> omega) (by simp at h2 ⊢ <;> omega))
    | cons a t1 =>
      cases l2 with
      | nil =>
        cases m with
        | zero => simp at h2
        | succ m =>
          simp only [mergeSortedArraysGo]
          exact congrArg _ (ih m t1 [] (by simp at h1 ⊢ <;> omega) (by simp at h2 ⊢ <;> omega))
      | cons b t2 =>
        cases m with
        | zero => simp at h2
        | succ m =>
          simp only [mergeSortedArraysGo]
          by_cases h : v a < v b
          · rw [if_pos h, if_pos h]
            exact congrArg _
              (ih m t1 (b :: t2) (by simp at h1 ⊢ <;> omega) (by simp at h2 ⊢ <;> omega))
          · rw [if_neg h, if_neg h]
            exact congrArg _
              (ih m (a :: t1) t2 (by simp at h1 ⊢ <;> omega) (by simp at h2 ⊢ <;> omega))

theorem mergeSortedArraysGo_eq (v : α → Int) (n : Nat) (l1 l2 : List α)
    (h : l1.length + l2.length ≤ n) :
    mergeSortedArraysGo v n l1 l2 = mergeSortedArrays l1 l2 v :=
  mergeSortedArraysGo_congr v n (l1.length + l2.length) l1 l2 h (le_refl _)

theorem mergeSortedArrays_nil_left (v : α → Int) (l : List α) :
    mergeSortedArrays [] l v = l := by
  rw [← mergeSortedArraysGo_eq v l.length [] l (by simp)]
  induction l with
  | nil => rfl
  | cons b t ih => simpa [mergeSortedArraysGo] using ih

theorem mergeSortedArrays_nil_right (v : α → Int) (l : List α) :
    mergeSortedArrays l [] v = l := by
  rw [← mergeSortedArraysGo_eq v l.length l [] (by simp)]
  induction l with
  | nil => rfl
  | cons a t ih => simpa [mergeSortedArraysGo] using ih

theorem mergeSortedArrays_cons_cons_lt (v : α → Int) (a b : α) (t1 t2 : List α)
    (h : v a < v b) :
    mergeSortedArrays (a :: t1) (b :: t2) v = a :: mergeSortedArrays t1 (b :: t2) v := by
  have h1 : mergeSortedArrays (a :: t1) (b :: t2) v =
      mergeSortedArraysGo v ((t1.length + (b :: t2).length) + 1) (a :: t1) (b :: t2) := by
    rw [mergeSortedArraysGo_eq v _ (a :: t1) (b :: t2) (by simp <;> omega)]
  rw [h1]
  simp only [mergeSortedArraysGo, if_pos h]
  rw [mergeSortedArraysGo_eq v _ t1 (b :: t2) (le_refl _)]

theorem mergeSortedArrays_cons_cons_ge (v : α → Int) (a b : α) (t1 t2 : List α)
    (h : ¬v a < v b) :
    mergeSortedArrays (a :: t1) (b :: t2) v = b :: mergeSortedArrays (a :: t1) t2 v := by
  have h1 : mergeSortedArrays (a :: t1) (b :: t2) v =
      mergeSortedArraysGo v (((a :: t1).length + t2.length) + 1) (a :: t1) (b :: t2) := by
    rw [mergeSortedArraysGo_eq v _ (a :: t1) (b :: t2) (by simp <;> omega)]
  rw [h1]
  simp only [mergeSortedArraysGo, if_neg h]
  rw [mergeSortedArraysGo_eq v _ (a :: t1) t2 (le_refl _)]

theorem mergeSortedArraysGo_perm (v : α → Int) :
    ∀ (n : Nat) (l1 l2 : List α), l1.length + l2.length ≤ n →
      (mergeSortedArraysGo v n l1 l2).Perm (l1 ++ l2) := by
  intro n
  induction n with
  | zero =>
    intro l1 l2 h
    cases l1 with
    | cons a t1 => simp at h
    | nil =>
      cases l2 with
      | cons b t2 => simp at h
      | nil => exact List.Perm.refl _
  | succ n ih =>
    intro l1 l2 h
    cases l1 with
    | nil =>
      cases l2 with
      | nil => simp [mergeSortedArraysGo]
      | cons b t2 =>
        simp only [mergeSortedArraysGo, List.nil_append]
        exact (ih [] t2 (by simp at h ⊢ <;> omega)).cons b
    | cons a t1 =>
      cases l2 with
      | nil =>
        simp only [mergeSortedArraysGo, List.append_nil]
        have := (ih t1 [] (by simp at h ⊢ <;> omega)).cons a
        simpa using this
      | cons b t2 =>
        simp only [mergeSortedArraysGo]
        by_cases hv : v a < v b
        · rw [if_pos hv]
          exact (ih t1 (b :: t2) (by simp at h ⊢ <;> omega)).cons a
        · rw [if_neg hv]
          have h1 := (ih (a :: t1) t2 (by simp at h ⊢ <;> omega)).cons b
          exact h1.trans (List.perm_middle).symm

theorem mergeSortedArrays_perm (v : α → Int) (l1 l2 : List α) :
    (mergeSortedArrays l1 l2 v).Perm (l1 ++ l2) :=
  mergeSortedArraysGo_perm v (l1.length + l2.length) l1 l2 (le_refl _)

theorem mergeSortedArrays_length (v : α → Int) (l1 l2 : List α) :
    (mergeSortedArrays l1 l2 v).length = l1.length + l2.length := by
  have := (mergeSortedArrays_perm v l1 l2).length_eq
  simpa using this

theorem mergeSortedArrays_mem (v : α → Int) (l1 l2 : List α) (x : α) :
    x ∈ mergeSortedArrays l1 l2 v ↔ x ∈ l1 ∨ x ∈ l2 := by
  rw [(mergeSortedArrays_perm v l1 l2).mem_iff]
  simp

theorem mergeSortedArrays_sorted (v : α → Int) :
    ∀ (l1 l2 : List α),
      l1.Pairwise (fun a b => v a ≤ v b) → l2.Pairwise (fun a b => v a ≤ v b) →
      (mergeSortedArrays l1 l2 v).Pairwise (fun a b => v a ≤ v b) := by
  have go : ∀ (n : Nat) (l1 l2 : List α), l1.length + l2.length ≤ n →
      l1.Pairwise (fun a b => v a ≤ v b) → l2.Pairwise (fun a b => v a ≤ v b) →
      (mergeSortedArraysGo v n l1 l2).Pairwise (fun a b => v a ≤ v b) := by
    intro n
    induction n with
    | zero =>
      intro l1 l2 h _ _
      cases l1 with
      | cons a t1 => simp at h
      | nil =>
        cases l2 with
        | cons b t2 => simp at h
        | nil => exact List.Pairwise.nil
    | succ n ih =>
      intro l1 l2 h h1 h2
      cases l1 with
      | nil =>
        cases l2 with
        | nil => simp [mergeSortedArraysGo]
        | cons b t2 =>
          simp only [mergeSortedArraysGo]
          refine List.Pairwise.cons ?_ (ih [] t2 (by simp at h ⊢ <;> omega)
            List.Pairwise.nil (List.Pairwise.of_cons h2))
          intro y hy
          have hmem := (mergeSortedArraysGo_perm v n [] t2
            (by simp at h ⊢ <;> omega)).mem_iff.mp hy
          simp only [List.nil_append] at hmem
          exact List.rel_of_pairwise_cons h2 hmem
      | cons a t1 =>
        cases l2 with
        | nil =>
          simp only [mergeSortedArraysGo]
          refine List.Pairwise.cons ?_ (ih t1 [] (by simp at h ⊢ <;> omega)
            (List.Pairwise.of_cons h1) List.Pairwise.nil)
          intro y hy
          have hmem := (mergeSortedArraysGo_perm v n t1 []
            (by simp at h ⊢ <;> omega)).mem_iff.mp hy
          simp only [List.append_nil] at hmem
          exact List.rel_of_pairwise_cons h1 hmem
        | cons b t2 =>
          simp only [mergeSortedArraysGo]
          by_cases hv : v a < v b
          · rw [if_pos hv]
            refine List.Pairwise.cons ?_ (ih t1 (b :: t2) (by simp at h ⊢ <;> omega)
              (List.Pairwise.of_cons h1) h2)
            intro y hy
            have hmem := (mergeSortedArraysGo_perm v n t1 (b :: t2)
              (by simp at h ⊢ <;> omega)).mem_iff.mp hy
            rcases List.mem_append.mp hmem with hy1 | hy2
            · exact List.rel_of_pairwise_cons h1 hy1
            · rcases List.mem_cons.mp hy2 with rfl | hy3
              · exact le_of_lt hv
              · exact le_trans (le_of_lt hv) (List.rel_of_pairwise_cons h2 hy3)
          · rw [if_neg hv]
            have hba : v b ≤ v a := le_of_not_lt hv
            refine List.Pairwise.cons ?_ (ih (a :: t1) t2 (by simp at h ⊢ <;> omega)
              h1 (List.Pairwise.of_cons h2))
            intro y hy
            have hmem := (mergeSortedArraysGo_perm v n (a :: t1) t2
              (by simp at h ⊢ <;> omega)).mem_iff.mp hy
            rcases List.mem_append.mp hmem with hy1 | hy2
            · rcases List.mem_cons.mp hy1 with rfl | hy3
              · exact hba
              · exact le_trans hba (List.rel_of_pairwise_cons h1 hy3)
            · exact List.rel_of_pairwise_cons h2 hy2
  intro l1 l2 h1 h2
  exact go (l1.length + l2.length) l1 l2 (le_refl _) h1 h2

theorem mergeSortedArrays_sublist_left (v : α → Int) :
    ∀ (l1 l2 : List α), l1.Sublist (mergeSortedArrays l1 l2 v) := by
  have go : ∀ (n : Nat) (l1 l2 : List α), l1.length + l2.length ≤ n →
      l1.Sublist (mergeSortedArraysGo v n l1 l2) := by
    intro n
    induction n with
    | zero =>
      intro l1 l2 h
      cases l1 with
      | cons a t1 => simp at h
      | nil => exact List.nil_sublist _
    | succ n ih =>
      intro l1 l2 h
      cases l1 with
      | nil => exact List.nil_sublist _
      | cons a t1 =>
        cases l2 with
        | nil =>
          simp only [mergeSortedArraysGo]
          exact (ih t1 [] (by simp at h ⊢ <;> omega)).cons₂ a
        | cons b t2 =>
          simp only [mergeSortedArraysGo]
          by_cases hv : v a < v b
          · rw [if_pos hv]
            exact (ih t1 (b :: t2) (by simp at h ⊢ <;> omega)).cons₂ a
          · rw [if_neg hv]
            exact (ih (a :: t1) t2 (by simp at h ⊢ <;> omega)).cons b
  intro l1 l2
  exact go (l1.length + l2.length) l1 l2 (le_refl _)

theorem mergeSortedArrays_sublist_right (v : α → Int) :
    ∀ (l1 l2 : List α), l2.Sublist (mergeSortedArrays l1 l2 v) := by
  have go : ∀ (n : Nat) (l1 l2 : List α), l1.length + l2.length ≤ n →
      l2.Sublist (mergeSortedArraysGo v n l1 l2) := by
    intro n
    induction n with
    | zero =>
      intro l1 l2 h
      cases l2 with
      | cons b t2 => simp at h
      | nil => exact List.nil_sublist _
    | succ n ih =>
      intro l1 l2 h
      cases l2 with
      | nil => exact List.nil_sublist _
      | cons b t2 =>
        cases l1 with
        | nil =>
          simp only [mergeSortedArraysGo]
          exact (ih [] t2 (by simp at h ⊢ <;> omega)).cons₂ b
        | cons a t1 =>
          simp only [mergeSortedArraysGo]
          by_cases hv : v a < v b
          · rw [if_pos hv]
            exact (ih t1 (b :: t2) (by simp at h ⊢ <;> omega)).cons a
          · rw [if_neg hv]
            exact (ih (a :: t1) t2 (by simp at h ⊢ <;> omega)).cons₂ b
  intro l1 l2
  exact go (l1.length + l2.length) l1 l2 (le_refl _)

theorem foldl_mergeRows_perm :
    ∀ (rss : List (List ReportRow)) (acc : List ReportRow),
      (rss.foldl mergeRows acc).Perm (acc ++ rss.flatten) := by
  intro rss
  induction rss with
  | nil => intro acc; simp
  | cons l rss ih =>
    intro acc
    have h1 := ih (mergeRows acc l)
    have h2 : (mergeRows acc l ++ rss.flatten).Perm ((acc ++ l) ++ rss.flatten) :=
      (mergeSortedArrays_perm reportRowValue acc l).append_right _
    have h3 : ((l :: rss).foldl mergeRows acc).Perm ((acc ++ l) ++ rss.flatten) :=
      h1.trans h2
    have h4 : (acc ++ l) ++ rss.flatten = acc ++ (l :: rss).flatten := by simp
    rw [h4] at h3
    exact h3

theorem foldl_mergeRows_sorted :
    ∀ (rss : List (List ReportRow)) (acc : List ReportRow),
      SortedByValue acc → (∀ l ∈ rss, SortedByValue l) →
      SortedByValue (rss.foldl mergeRows acc) := by
  intro rss
  induction rss with
  | nil => intro acc h _; exact h
  | cons l rss ih =>
    intro acc hacc hall
    exact ih (mergeRows acc l)
      (mergeSortedArrays_sorted reportRowValue acc l hacc (hall l (by simp)))
      (fun l' hl' => hall l' (by simp [hl']))

theorem perm_flatten_of_perm {rss rss' : List (List α)} (h : rss.Perm rss') :
    rss.flatten.Perm rss'.flatten := by
  induction h with
  | nil => exact List.Perm.refl _
  | cons x _ ih => simpa using ih.append_left x
  | swap x y l =>
    show (y ++ (x ++ l.flatten)).Perm (x ++ (y ++ l.flatten))
    rw [← List.append_assoc, ← List.append_assoc]
    exact (List.perm_append_comm).append_right _
  | trans _ _ ih1 ih2 => exact ih1.trans ih2

/-! # Claims -/

/-- C1: for every finite family of pairwise-disjoint row sequences, each
sorted ascending by metric value, folding the row merge
(`mergeReportRows`/`mergeSortedArrays` on present arrays, i.e.
`mergeRows`) from the empty sequence over any permutation of the family
yields a sequence sorted ascending by metric value, whose length is the
sum of the input lengths, and which is a permutation of (contains exactly
the multiset union of) the concatenated inputs — the same rows regardless
of the permutation. -/
theorem c1_merge_fold (rss rss' : List (List ReportRow))
    (hperm : rss.Perm rss')
    (hsorted : ∀ l ∈ rss, SortedByValue l)
    (hdisj : rss.Pairwise (fun l1 l2 => ∀ r ∈ l1, r ∉ l2)) :
    SortedByValue (rss'.foldl mergeRows []) ∧
      (rss'.foldl mergeRows []).length = (rss.map List.length).sum ∧
      (rss'.foldl mergeRows []).Perm rss.flatten := by
  have hsorted' : ∀ l ∈ rss', SortedByValue l := fun l hl =>
    hsorted l (hperm.mem_iff.mpr hl)
  have hp : (rss'.foldl mergeRows []).Perm rss'.flatten := by
    simpa using foldl_mergeRows_perm rss' []
  refine ⟨foldl_mergeRows_sorted rss' [] List.Pairwise.nil hsorted', ?_, ?_⟩
  · rw [hp.length_eq, List.length_flatten]
    exact (List.Perm.map List.length hperm).symm.sum_eq
  · exact hp.trans (perm_flatten_of_perm hperm.symm)

/-- Witness for C1 at a concrete two-member family and its swap. -/
theorem c1_merge_fold_witness :
    ([[⟨0, none, 0, 1⟩], [⟨1, none, 0, 2⟩]] :
        List (List ReportRow)).Perm [[⟨1, none, 0, 2⟩], [⟨0, none, 0, 1⟩]] ∧
      (∀ l ∈ ([[⟨0, none, 0, 1⟩], [⟨1, none, 0, 2⟩]] :
          List (List ReportRow)), SortedByValue l) ∧
      (SortedByValue (([[⟨1, none, 0, 2⟩], [⟨0, none, 0, 1⟩]] :
            List (List ReportRow)).foldl mergeRows []) ∧
        (([[⟨1, none, 0, 2⟩], [⟨0, none, 0, 1⟩]] :
            List (List ReportRow)).foldl mergeRows []).length =
          (([[⟨0, none, 0, 1⟩], [⟨1, none, 0, 2⟩]] :
              List (List ReportRow)).map List.length).sum ∧
        (([[⟨1, none, 0, 2⟩], [⟨0, none, 0, 1⟩]] :
            List (List ReportRow)).foldl mergeRows []).Perm
          ([[⟨0, none, 0, 1⟩], [⟨1, none, 0, 2⟩]] :
            List (List ReportRow)).flatten) :=
  ⟨by decide, by decide,
    c1_merge_fold [[⟨0, none, 0, 1⟩], [⟨1, none, 0, 2⟩]]
      [[⟨1, none, 0, 2⟩], [⟨0, none, 0, 1⟩]]
      (by decide) (by decide) (by decide)⟩

/-- C7, counterexample: the merge is not stable in the claimed direction.
On rows of equal metric value the loop's strict `<` pushes the element of
the SECOND input first: merging `[a]` and `[b]` with equal metric values
yields `[b, a]`, so the element of the first input is not placed before
the equal-valued element of the second, refuting the stability clause of
the claim. -/
theorem c7_counterexample :
    mergeRows [⟨0, none, 0, 5⟩] [⟨1, none, 0, 5⟩] =
        [⟨1, none, 0, 5⟩, ⟨0, none, 0, 5⟩] ∧
      reportRowValue ⟨0, none, 0, 5⟩ = reportRowValue ⟨1, none, 0, 5⟩ ∧
      (⟨0, none, 0, 5⟩ : ReportRow) ≠ ⟨1, none, 0, 5⟩ ∧
      mergeRows [⟨0, none, 0, 5⟩] [⟨1, none, 0, 5⟩] ≠
        [⟨0, none, 0, 5⟩, ⟨1, none, 0, 5⟩] := by
  decide

/-- C7 as amended: an absent (`undefined`) input returns the other input;
an empty input returns the other input unchanged; the merge preserves the
relative order of each input (each input is a sublist of the result); and
on equal metric values the element of the SECOND input is emitted before
the equal-valued element of the first (ties go to the second input, not
the first). -/
theorem c7_amended :
    (∀ r, mergeReportRows none r = r) ∧
      (∀ l, mergeReportRows (some l) none = some l) ∧
      (∀ l : List ReportRow, mergeRows [] l = l ∧ mergeRows l [] = l) ∧
      (∀ l1 l2 : List ReportRow,
        l1.Sublist (mergeRows l1 l2) ∧ l2.Sublist (mergeRows l1 l2)) ∧
      (∀ (a b : ReportRow) (t1 t2 : List ReportRow),
        reportRowValue a < reportRowValue b →
          mergeRows (a :: t1) (b :: t2) = a :: mergeRows t1 (b :: t2)) ∧
      (∀ (a b : ReportRow) (t1 t2 : List ReportRow),
        ¬reportRowValue a < reportRowValue b →
          mergeRows (a :: t1) (b :: t2) = b :: mergeRows (a :: t1) t2) := by
  refine ⟨fun r => rfl, fun l => rfl, ?_, ?_, ?_, ?_⟩
  · exact fun l => ⟨mergeSortedArrays_nil_left _ l, mergeSortedArrays_nil_right _ l⟩
  · exact fun l1 l2 =>
      ⟨mergeSortedArrays_sublist_left _ l1 l2, mergeSortedArrays_sublist_right _ l1 l2⟩
  · exact fun a b t1 t2 h => mergeSortedArrays_cons_cons_lt _ a b t1 t2 h
  · exact fun a b t1 t2 h => mergeSortedArrays_cons_cons_ge _ a b t1 t2 h

/-- Witness for C7's amended tie-breaking clauses at concrete rows. -/
theorem c7_amended_witness :
    (reportRowValue ⟨0, none, 0, 1⟩ < reportRowValue ⟨1, none, 0, 2⟩ ∧
        mergeRows [⟨0, none, 0, 1⟩] [⟨1, none, 0, 2⟩] =
          ⟨0, none, 0, 1⟩ :: mergeRows [] [⟨1, none, 0, 2⟩]) ∧
      (¬reportRowValue ⟨0, none, 0, 5⟩ < reportRowValue ⟨1, none, 0, 5⟩ ∧
        mergeRows [⟨0, none, 0, 5⟩] [⟨1, none, 0, 5⟩] =
          ⟨1, none, 0, 5⟩ :: mergeRows [⟨0, none, 0, 5⟩] []) :=
  ⟨⟨by decide, c7_amended.2.2.2.2.1 ⟨0, none, 0, 1⟩ ⟨1, none, 0, 2⟩ [] [] (by decide)⟩,
    ⟨by decide, c7_amended.2.2.2.2.2 ⟨0, none, 0, 5⟩ ⟨1, none, 0, 5⟩ [] [] (by decide)⟩⟩

theorem updatePercentage_invariant (p : Progress) (q : Int)
    (hq : p._percentage = .num q) (h0 : 0 ≤ q) (h99 : q ≤ 99)
    (hnz : ¬(p._cur = 0 ∧ p._total = 0)) :
    (∃ q' : Int, (updatePercentage p)._percentage = .num q' ∧ 0 ≤ q' ∧ q' ≤ 99 ∧ q ≤ q') := by
  unfold updatePercentage
  by_cases ht : p._total ≠ 0
  · rw [if_pos ht]
    refine ⟨max q (min 99 ((p._cur * 100).fdiv p._total)), ?_, ?_, ?_, ?_⟩
    · simp [hq, jsMax]
    · omega
    · have : min 99 ((p._cur * 100).fdiv p._total) ≤ 99 := min_le_left _ _
      omega
    · exact le_max_left _ _
  · rw [if_neg ht]
    by_cases hc : 0 < p._cur
    · rw [if_pos hc]
      refine ⟨max q 99, ?_, by omega, by omega, le_max_left _ _⟩
      simp [hq, jsMax]
    · rw [if_neg hc]
      have hc' : p._cur < 0 := by
        rcases lt_trichotomy p._cur 0 with h | h | h
        · exact h
        · exact absurd ⟨h, not_not.mp ht⟩ hnz
        · exact absurd h hc
      rw [if_pos hc']
      exact ⟨q, by simp [hq, jsMax], h0, h99, le_refl q⟩

theorem applyUpdate_cur_total (p : Progress) (u : ProgressUpdate) :
    (applyUpdate p u)._cur =
        (match u with | .setCur v => v | .setTotal _ => p._cur) ∧
      (applyUpdate p u)._total =
        (match u with | .setCur _ => p._total | .setTotal v => v) := by
  cases u <;> simp [applyUpdate, updatePercentage] <;> split <;> rfl

theorem applyUpdate_percentage_invariant (p : Progress) (u : ProgressUpdate) (q : Int)
    (hq : p._percentage = .num q) (h0 : 0 ≤ q) (h99 : q ≤ 99)
    (hnz : ¬((applyUpdate p u)._cur = 0 ∧ (applyUpdate p u)._total = 0)) :
    ∃ q' : Int, (applyUpdate p u)._percentage = .num q' ∧
      0 ≤ q' ∧ q' ≤ 99 ∧ q ≤ q' := by
  cases u with
  | setCur v =>
    exact updatePercentage_invariant { p with _cur := v } q hq h0 h99
      (by simpa [applyUpdate, updatePercentage] using hnz)
  | setTotal v =>
    exact updatePercentage_invariant { p with _total := v } q hq h0 h99
      (by simpa [applyUpdate, updatePercentage] using hnz)

theorem progressTrace_invariant :
    ∀ (us : List ProgressUpdate) (p : Progress) (q : Int),
      p._percentage = .num q → 0 ≤ q → q ≤ 99 →
      (∀ st ∈ progressTrace p us, ¬(st._cur = 0 ∧ st._total = 0)) →
      (∀ st ∈ progressTrace p us,
        ∃ q' : Int, st._percentage = .num q' ∧ 0 ≤ q' ∧ q' ≤ 99) ∧
      List.Chain' (fun a b => jsLe a._percentage b._percentage = true)
        (p :: progressTrace p us) := by
  intro us
  induction us with
  | nil =>
    intro p q hq h0 h99 hnz
    exact ⟨fun st hst => absurd hst (by simp [progressTrace]), by simp [progressTrace]⟩
  | cons u us ih =>
    intro p q hq h0 h99 hnz
    have hnz1 : ¬((applyUpdate p u)._cur = 0 ∧ (applyUpdate p u)._total = 0) :=
      hnz (applyUpdate p u) (by simp [progressTrace])
    obtain ⟨q', hq', h0', h99', hle⟩ :=
      applyUpdate_percentage_invariant p u q hq h0 h99 hnz1
    have hnz' : ∀ st ∈ progressTrace (applyUpdate p u) us,
        ¬(st._cur = 0 ∧ st._total = 0) :=
      fun st hst => hnz st (by simp [progressTrace, hst])
    obtain ⟨hbound, hchain⟩ := ih (applyUpdate p u) q' hq' h0' h99' hnz'
    constructor
    · intro st hst
      rcases (by simpa [progressTrace] using hst :
          st = applyUpdate p u ∨ st ∈ progressTrace (applyUpdate p u) us) with rfl | hst'
      · exact ⟨q', hq', h0', h99'⟩
      · exact hbound st hst'
    · show List.Chain' _ (p :: applyUpdate p u :: progressTrace (applyUpdate p u) us)
      refine List.Chain'.cons ?_ hchain
      simp [hq, hq', jsLe]
      omega

theorem schedReachable_invariant :
    ∀ s, SchedReachable s →
      s.concurrentRequests = (s.inFlight.length : Int) + s.pending.length ∧
        s.inFlight.length ≤ 7 := by
  intro s h
  induction h with
  | start => simp [schedInit]
  | enter id s _ hfresh ih =>
    unfold schedEnter
    by_cases hc : s.concurrentRequests + 1 ≤ MAX_CONCURRENT_REQUESTS
    · rw [if_pos hc]
      simp only [MAX_CONCURRENT_REQUESTS] at hc
      constructor
      · simp only [List.length_append, List.length_cons, List.length_nil]
        push_cast
        omega
      · simp only [List.length_append, List.length_cons, List.length_nil]
        omega
    · rw [if_neg hc]
      constructor
      · simp only [List.length_append, List.length_cons, List.length_nil]
        push_cast
        omega
      · exact ih.2
  | exit id s _ hmem ih =>
    unfold schedExit
    cases hl : s.pending.getLast? with
    | none =>
      have hpnil : s.pending = [] := by
        cases hp : s.pending with
        | nil => rfl
        | cons a t => rw [hp] at hl; simp [List.getLast?_eq_getLast] at hl
      have herase : (s.inFlight.erase id).length = s.inFlight.length - 1 :=
        List.length_erase_of_mem hmem
      have hpos : 1 ≤ s.inFlight.length := List.length_pos.mpr (List.ne_nil_of_mem hmem)
      rw [hpnil] at ih ⊢
      simp only [List.length_nil] at ih ⊢
      constructor
      · rw [herase]
        push_cast
        omega
      · omega
    | some w =>
      have herase : (s.inFlight.erase id).length = s.inFlight.length - 1 :=
        List.length_erase_of_mem hmem
      have hpos : 1 ≤ s.inFlight.length := List.length_pos.mpr (List.ne_nil_of_mem hmem)
      have hppos : 1 ≤ s.pending.length := by
        cases hp : s.pending with
        | nil => rw [hp] at hl; simp at hl
        | cons a t => simp [hp]
      constructor
      · simp only [List.length_append, List.length_cons, List.length_nil,
          List.length_dropLast]
        rw [herase]
        push_cast
        omega
      · simp only [List.length_append, List.length_cons, List.length_nil]
        omega

theorem decrementConcurrentRequests_counter (s : St) :
    (decrementConcurrentRequests s).concurrentRequests = s.concurrentRequests - 1 := by
  unfold decrementConcurrentRequests
  cases h : s.pendingRequestDeferreds.getLast? <;> simp [h]

theorem concurrentRequestsCountLessThanMax_counter (s : St) :
    (concurrentRequestsCountLessThanMax s).concurrentRequests = s.concurrentRequests := by
  unfold concurrentRequestsCountLessThanMax
  split <;> rfl

/-- C9, counterexample: the percentage is not monotonically non-decreasing
over every sequence of updates to `cur` and `total`.  The in-code update
`progress.total += usableKeys.length` with zero keys on the fresh counter
(`cur = 0`, `total = 0`) recomputes `Math.floor(0 * 100 / 0) = NaN`, and
`Math.max(0, NaN) = NaN`, so the percentage goes from `0` to `NaN` — and
`0 <= NaN` is false in JS, refuting monotonicity at this concrete update
sequence. -/
theorem c9_counterexample :
    (applyUpdate Progress.start (.setTotal 0))._percentage = JsNum.nan ∧
      ¬List.Chain' (fun a b => jsLe a._percentage b._percentage = true)
        (Progress.start :: progressTrace Progress.start [.setTotal 0]) := by
  constructor
  · decide
  · intro h
    have h1 := List.chain'_cons.mp h
    revert h1
    decide

/-- C9 as amended: over every sequence of updates to the progress
counter's `cur` and `total` fields in which no update recomputes the
percentage with both `cur = 0` and `total = 0` (the JS `0/0 = NaN` case),
the percentage is never negative, never exceeds 99, and is monotonically
non-decreasing across updates. -/
theorem c9_amended (us : List ProgressUpdate)
    (h : ∀ st ∈ progressTrace Progress.start us, ¬(st._cur = 0 ∧ st._total = 0)) :
    (∀ st ∈ progressTrace Progress.start us,
        jsLt st._percentage (JsNum.num 0) = false ∧
          jsLt (JsNum.num 99) st._percentage = false) ∧
      List.Chain' (fun a b => jsLe a._percentage b._percentage = true)
        (Progress.start :: progressTrace Progress.start us) := by
  obtain ⟨hbound, hchain⟩ :=
    progressTrace_invariant us Progress.start 0 rfl (le_refl 0) (by omega) h
  refine ⟨?_, hchain⟩
  intro st hst
  obtain ⟨q, hq, h0, h99⟩ := hbound st hst
  rw [hq]
  simp only [jsLt]
  constructor <;> simp <;> omega

/-- Witness for C9's amended statement at a concrete update sequence. -/
theorem c9_amended_witness :
    (∀ st ∈ progressTrace Progress.start [.setTotal 2, .setCur 1, .setCur 2],
        ¬(st._cur = 0 ∧ st._total = 0)) ∧
      ((∀ st ∈ progressTrace Progress.start [.setTotal 2, .setCur 1, .setCur 2],
          jsLt st._percentage (JsNum.num 0) = false ∧
            jsLt (JsNum.num 99) st._percentage = false) ∧
        List.Chain' (fun a b => jsLe a._percentage b._percentage = true)
          (Progress.start ::
            progressTrace Progress.start [.setTotal 2, .setCur 1, .setCur 2])) :=
  ⟨by decide, c9_amended [.setTotal 2, .setCur 1, .setCur 2] (by decide)⟩

/-- C5: on every reachable scheduler state at most 7 executions are past
admission (in flight) at once; an entry whose incremented counter exceeds
the ceiling suspends by appending its deferred at the END of the pending
queue; and a slot release wakes exactly the most recently queued waiter
(the last element of the pending queue — LIFO, not FIFO). -/
theorem c5_executor :
    (∀ s, SchedReachable s → s.inFlight.length ≤ 7) ∧
      (∀ (id : Nat) (s : SchedState),
        MAX_CONCURRENT_REQUESTS < s.concurrentRequests + 1 →
          schedEnter id s =
            ⟨s.concurrentRequests + 1, s.pending ++ [id], s.inFlight⟩) ∧
      (∀ (id w : Nat) (s : SchedState), s.pending.getLast? = some w →
        schedExit id s =
          ⟨s.concurrentRequests - 1, s.pending.dropLast, s.inFlight.erase id ++ [w]⟩) := by
  refine ⟨fun s h => (schedReachable_invariant s h).2, ?_, ?_⟩
  · intro id s h
    unfold schedEnter
    rw [if_neg (by omega)]
  · intro id w s h
    unfold schedExit
    rw [h]

/-- Witness for C5 at concrete scheduler states. -/
theorem c5_executor_witness :
    (schedEnter 1 schedInit).inFlight.length ≤ 7 ∧
      MAX_CONCURRENT_REQUESTS <
        (⟨8, [4, 5], [1, 2, 3]⟩ : SchedState).concurrentRequests + 1 ∧
      schedEnter 9 ⟨8, [4, 5], [1, 2, 3]⟩ = ⟨9, [4, 5, 9], [1, 2, 3]⟩ ∧
      (⟨8, [4, 5], [1, 2, 3]⟩ : SchedState).pending.getLast? = some 5 ∧
      schedExit 1 ⟨8, [4, 5], [1, 2, 3]⟩ = ⟨7, [4], [2, 3, 5]⟩ :=
  ⟨c5_executor.1 _ (SchedReachable.enter 1 schedInit SchedReachable.start
      (by constructor <;> simp [schedInit])),
    by decide,
    (c5_executor.2.1 9 ⟨8, [4, 5], [1, 2, 3]⟩ (by decide)).trans (by decide),
    by decide,
    (c5_executor.2.2 1 5 ⟨8, [4, 5], [1, 2, 3]⟩ (by decide)).trans (by decide)⟩

/-- C10: every execution of `makeReportingAPIRequest` leaves the global
counter exactly as it found it — one increment on entry, one decrement in
the `finally`, on the normal and the exceptional path alike (the equality
holds for every fetch outcome the environment can produce); each
decrement with a non-empty wait queue resolves exactly one waiter, namely
the most recently queued one; and on every reachable scheduler state the
counter equals the number of executions currently in flight (those past
admission plus those suspended), hence never negative — so a failed
request never permanently consumes a slot. -/
theorem c10_counter_discipline :
    (∀ (env : Env) (req : ReportRequest) (s : St),
        ((makeReportingAPIRequest env req s).2).concurrentRequests =
          s.concurrentRequests) ∧
      (∀ s : St, s.pendingRequestDeferreds ≠ [] →
        ∃ w, s.pendingRequestDeferreds.getLast? = some w ∧
          (decrementConcurrentRequests s).pendingRequestDeferreds.length + 1 =
            s.pendingRequestDeferreds.length ∧
          (decrementConcurrentRequests s).resolvedDeferreds =
            s.resolvedDeferreds ++ [w]) ∧
      (∀ s, SchedReachable s →
        s.concurrentRequests = (s.inFlight.length : Int) + s.pending.length ∧
          0 ≤ s.concurrentRequests) := by
  refine ⟨?_, ?_, ?_⟩
  · intro env req s
    simp only [makeReportingAPIRequest]
    split <;> (try split) <;> (try split) <;>
      simp [decrementConcurrentRequests_counter,
        concurrentRequestsCountLessThanMax_counter, incrementConcurrentRequests]
  · intro s hne
    cases hl : s.pendingRequestDeferreds.getLast? with
    | none =>
      exfalso
      apply hne
      cases hp : s.pendingRequestDeferreds with
      | nil => rfl
      | cons a t =>
        rw [hp] at hl
        simp [List.getLast?_eq_getLast] at hl
    | some w =>
      have hpos : 1 ≤ s.pendingRequestDeferreds.length :=
        List.length_pos.mpr hne
      have hpos2 : 1 ≤ s.pendingRequestDeferreds.length := hpos
      refine ⟨w, rfl, ?_, ?_⟩
      · simp only [decrementConcurrentRequests, hl]
        simp only [List.length_dropLast]
        omega
      · simp only [decrementConcurrentRequests, hl]
  · intro s h
    have := schedReachable_invariant s h
    refine ⟨this.1, ?_⟩
    rw [this.1]
    positivity

/-- Witness for C10: the net-zero equality exercised on the exceptional
(HTTP-failure) path, a concrete decrement with a non-empty queue, and the
counter identity at a concrete reachable state. -/
theorem c10_counter_discipline_witness :
    ((makeReportingAPIRequest envFail reqSimple St.init).2).concurrentRequests =
        St.init.concurrentRequests ∧
      ({ St.init with pendingRequestDeferreds := [3] } : St).pendingRequestDeferreds ≠ [] ∧
      (∃ w, ({ St.init with pendingRequestDeferreds := [3] } :
            St).pendingRequestDeferreds.getLast? = some w ∧
        (decrementConcurrentRequests
            { St.init with pendingRequestDeferreds := [3] }).pendingRequestDeferreds.length + 1 =
          ({ St.init with pendingRequestDeferreds := [3] } :
            St).pendingRequestDeferreds.length ∧
        (decrementConcurrentRequests
            { St.init with pendingRequestDeferreds := [3] }).resolvedDeferreds =
          ({ St.init with pendingRequestDeferreds := [3] } : St).resolvedDeferreds ++ [w]) ∧
      (schedEnter 1 schedInit).concurrentRequests =
        ((schedEnter 1 schedInit).inFlight.length : Int) +
          (schedEnter 1 schedInit).pending.length :=
  ⟨c10_counter_discipline.1 envFail reqSimple St.init,
    by decide,
    c10_counter_discipline.2.1 { St.init with pendingRequestDeferreds := [3] }
      (by decide),
    (c10_counter_discipline.2.2 _ (SchedReachable.enter 1 schedInit
        SchedReachable.start (by constructor <;> simp [schedInit]))).1⟩

theorem decrementConcurrentRequests_fetchLog (s : St) :
    (decrementConcurrentRequests s).fetchLog = s.fetchLog := by
  simp only [decrementConcurrentRequests]
  cases h : s.pendingRequestDeferreds.getLast? <;> simp [h]

theorem decrementConcurrentRequests_refreshCount (s : St) :
    (decrementConcurrentRequests s).refreshCount = s.refreshCount := by
  simp only [decrementConcurrentRequests]
  cases h : s.pendingRequestDeferreds.getLast? <;> simp [h]

theorem concurrentRequestsCountLessThanMax_fetchLog (s : St) :
    (concurrentRequestsCountLessThanMax s).fetchLog = s.fetchLog := by
  unfold concurrentRequestsCountLessThanMax
  split <;> rfl

theorem concurrentRequestsCountLessThanMax_refreshCount (s : St) :
    (concurrentRequestsCountLessThanMax s).refreshCount = s.refreshCount := by
  unfold concurrentRequestsCountLessThanMax
  split <;> rfl

/-- C6: the retry policy of the request executor.  A first-fetch success
is returned after exactly one fetch; a non-OK response with upstream code
401 triggers one token refresh and exactly one re-issue, whose OK result
is returned; if the retry is still non-OK (any code), or if the first
response is non-OK with a code other than 401, the executor fails with an
error carrying the final upstream error code and message; and no
execution ever issues more than two fetches. -/
theorem c6_retry_policy :
    (∀ (env : Env) (req : ReportRequest) (s : St) (r : Report),
        env.fetch s.fetchLog.length req = .httpOk r →
          (makeReportingAPIRequest env req s).1 = .ok r ∧
            ((makeReportingAPIRequest env req s).2).fetchLog = s.fetchLog ++ [req] ∧
            ((makeReportingAPIRequest env req s).2).refreshCount = s.refreshCount) ∧
      (∀ (env : Env) (req : ReportRequest) (s : St) (m : String) (r : Report),
        env.fetch s.fetchLog.length req = .httpErr 401 m →
        env.fetch (s.fetchLog.length + 1) req = .httpOk r →
          (makeReportingAPIRequest env req s).1 = .ok r ∧
            ((makeReportingAPIRequest env req s).2).fetchLog = s.fetchLog ++ [req, req] ∧
            ((makeReportingAPIRequest env req s).2).refreshCount = s.refreshCount + 1) ∧
      (∀ (env : Env) (req : ReportRequest) (s : St) (m : String) (c2 : Int) (m2 : String),
        env.fetch s.fetchLog.length req = .httpErr 401 m →
        env.fetch (s.fetchLog.length + 1) req = .httpErr c2 m2 →
          (makeReportingAPIRequest env req s).1 = .error (.http c2 m2) ∧
            ((makeReportingAPIRequest env req s).2).fetchLog = s.fetchLog ++ [req, req] ∧
            ((makeReportingAPIRequest env req s).2).refreshCount = s.refreshCount + 1) ∧
      (∀ (env : Env) (req : ReportRequest) (s : St) (c : Int) (m : String),
        env.fetch s.fetchLog.length req = .httpErr c m → c ≠ 401 →
          (makeReportingAPIRequest env req s).1 = .error (.http c m) ∧
            ((makeReportingAPIRequest env req s).2).fetchLog = s.fetchLog ++ [req] ∧
            ((makeReportingAPIRequest env req s).2).refreshCount = s.refreshCount) ∧
      (∀ (env : Env) (req : ReportRequest) (s : St),
        ((makeReportingAPIRequest env req s).2).fetchLog.length ≤ s.fetchLog.length + 2) := by
  refine ⟨?_, ?_, ?_, ?_, ?_⟩
  · intro env req s r h1
    simp [makeReportingAPIRequest, concurrentRequestsCountLessThanMax_fetchLog,
      incrementConcurrentRequests, h1, decrementConcurrentRequests_fetchLog,
      decrementConcurrentRequests_refreshCount,
      concurrentRequestsCountLessThanMax_refreshCount]
  · intro env req s m r h1 h2
    simp [makeReportingAPIRequest, concurrentRequestsCountLessThanMax_fetchLog,
      incrementConcurrentRequests, h1, h2, decrementConcurrentRequests_fetchLog,
      decrementConcurrentRequests_refreshCount,
      concurrentRequestsCountLessThanMax_refreshCount]
  · intro env req s m c2 m2 h1 h2
    simp [makeReportingAPIRequest, concurrentRequestsCountLessThanMax_fetchLog,
      incrementConcurrentRequests, h1, h2, decrementConcurrentRequests_fetchLog,
      decrementConcurrentRequests_refreshCount,
      concurrentRequestsCountLessThanMax_refreshCount]
  · intro env req s c m h1 hc
    simp [makeReportingAPIRequest, concurrentRequestsCountLessThanMax_fetchLog,
      incrementConcurrentRequests, h1, hc, decrementConcurrentRequests_fetchLog,
      decrementConcurrentRequests_refreshCount,
      concurrentRequestsCountLessThanMax_refreshCount]
  · intro env req s
    simp only [makeReportingAPIRequest]
    split <;> (try split) <;> (try split) <;>
      simp [decrementConcurrentRequests_fetchLog,
        concurrentRequestsCountLessThanMax_fetchLog, incrementConcurrentRequests]

/-- Witness for C6: a concrete 401-then-success run. -/
theorem c6_retry_policy_witness :
    envRetry.fetch St.init.fetchLog.length reqSimple = .httpErr 401 msg401 ∧
      envRetry.fetch (St.init.fetchLog.length + 1) reqSimple = .httpOk reportEmpty ∧
      ((makeReportingAPIRequest envRetry reqSimple St.init).1 = .ok reportEmpty ∧
        ((makeReportingAPIRequest envRetry reqSimple St.init).2).fetchLog =
          St.init.fetchLog ++ [reqSimple, reqSimple] ∧
        ((makeReportingAPIRequest envRetry reqSimple St.init).2).refreshCount =
          St.init.refreshCount + 1) :=
  ⟨by decide, by decide,
    c6_retry_policy.2.1 envRetry reqSimple St.init msg401 reportEmpty
      (by decide) (by decide)⟩

theorem mergedByDates_snd (r : Except ApiError (List (List ReportRow)) × St) :
    (mergedByDates r).2 = r.2 := by
  rcases r with ⟨res, s⟩
  cases res <;> rfl

theorem mergedByDates_error (r : Except ApiError (List (List ReportRow)) × St)
    (e : ApiError) : (mergedByDates r).1 = .error e ↔ r.1 = .error e := by
  rcases r with ⟨res, s⟩
  cases res <;> simp [mergedByDates]

theorem getReportRowsFromAPI_succ (env : Env) (orig : DateRange) (fuel : Nat)
    (req : ReportRequest) (s : St) :
    getReportRowsFromAPI env orig (fuel + 1) req s =
      getReportRowsFromAPIBody env orig
        (fun r2 dr t => mergedByDates ((apiFns env orig fuel).2 r2 dr t)) req s := rfl

theorem apiFns_succ (env : Env) (orig : DateRange) (fuel : Nat) :
    apiFns env orig (fuel + 1) =
      (fun req s =>
        getReportRowsFromAPIBody env orig
          (fun req' ranges t => mergedByDates ((apiFns env orig fuel).2 req' ranges t))
          req s,
       getReportRowsByDatesBody fun req s =>
        getReportRowsFromAPIBody env orig
          (fun req' ranges t => mergedByDates ((apiFns env orig fuel).2 req' ranges t))
          req s) := rfl

theorem getReportRowsByDatesFromAPI_nil (env : Env) (orig : DateRange) (fuel : Nat)
    (req : ReportRequest) (s : St) :
    getReportRowsByDatesFromAPI env orig fuel req [] s = (.ok [], s) := by
  cases fuel <;> rfl

theorem makeReportingAPIRequest_error (env : Env) (req : ReportRequest) (s : St) :
    ∀ e, (makeReportingAPIRequest env req s).1 = .error e → ∃ c m, e = .http c m := by
  intro e
  simp only [makeReportingAPIRequest]
  split
  · intro h; simp at h
  · split
    · split
      · intro h; simp at h
      · intro h
        simp at h
        first
        | exact ⟨_, _, h⟩
        | exact ⟨_, _, h.symm⟩
    · intro h
      simp at h
      first
      | exact ⟨_, _, h⟩
      | exact ⟨_, _, h.symm⟩

theorem fetchPages_error (env : Env) :
    ∀ (reqs : List ReportRequest) (s : St) (e : ApiError),
      (fetchPages env reqs s).1 = .error e → ∃ c m, e = .http c m := by
  intro reqs
  induction reqs with
  | nil => intro s e h; simp [fetchPages] at h
  | cons req rest ih =>
    intro s e h
    simp only [fetchPages] at h
    rcases hr : makeReportingAPIRequest env req s with ⟨res, s'⟩
    rw [hr] at h
    cases res with
    | error e' =>
      simp at h
      subst h
      exact makeReportingAPIRequest_error env req s e' (by rw [hr])
    | ok page =>
      simp only at h
      rcases hrest : fetchPages env rest { s' with progressCur := s'.progressCur + 1 }
        with ⟨res2, s''⟩
      rw [hrest] at h
      cases res2 with
      | error e2 =>
        simp at h
        subst h
        exact ih _ e2 (by rw [hrest])
      | ok pages => simp at h

theorem makeReportingAPIRequest_error_pair (env : Env) (req : ReportRequest)
    (s : St) (e : ApiError) (t : St)
    (h : makeReportingAPIRequest env req s = (.error e, t)) :
    ∃ c m, e = .http c m :=
  makeReportingAPIRequest_error env req s e (by rw [h])

theorem fetchPages_error_pair (env : Env) (reqs : List ReportRequest) (s : St)
    (e : ApiError) (t : St) (h : fetchPages env reqs s = (.error e, t)) :
    ∃ c m, e = .http c m :=
  fetchPages_error env reqs s e (by rw [h])

theorem getReportRowsByDatesBody_no_sampling
    (f : ReportRequest → St → Except ApiError (List ReportRow) × St)
    (hf : ∀ req s, req.samplingLevel = smallSamplingLevel →
      (f req s).1 ≠ .error .sampling) :
    ∀ (req : ReportRequest) (drs : List DateRange) (s : St),
      req.samplingLevel = smallSamplingLevel →
      (getReportRowsByDatesBody f req drs s).1 ≠ .error .sampling := by
  intro req drs
  induction drs with
  | nil => intro s _ h; simp [getReportRowsByDatesBody] at h
  | cons dr rest ih =>
    intro s hreq h
    simp only [getReportRowsByDatesBody] at h
    split at h
    next e s' heq =>
      simp at h
      subst h
      exact hf (getReportRequestForDates req dr) s
        (by simp [getReportRequestForDates, hreq]) (by rw [heq])
    next rows s' heq =>
      split at h
      next e2 s'' heq2 =>
        simp at h
        subst h
        exact ih s' hreq (by rw [heq2])
      next rls s'' heq2 => simp at h

theorem getReportRowsFromAPIBody_no_sampling (env : Env) (orig : DateRange)
    (byDates : ReportRequest → List DateRange → St →
      Except ApiError (List ReportRow) × St)
    (hby : ∀ req drs s, req.samplingLevel = smallSamplingLevel →
      (byDates req drs s).1 ≠ .error .sampling) :
    ∀ (req : ReportRequest) (s : St), req.samplingLevel = smallSamplingLevel →
      (getReportRowsFromAPIBody env orig byDates req s).1 ≠ .error .sampling := by
  intro req s hreq h
  rw [getReportRowsFromAPIBody.eq_1] at h
  rw [if_neg (by simp [hreq])] at h
  split at h
  next e s' heq =>
    obtain ⟨c, m, hcm⟩ := makeReportingAPIRequest_error_pair env req _ e s' heq
    simp at h
    rw [h] at hcm
    simp at hcm
  next report s' heq =>
    split at h
    next hcond => exact hby req _ _ hreq h
    next hcond =>
      split at h
      next hcond2 => exact absurd hcond2 (by simp [hreq])
      next hcond2 =>
        split at h
        next hcond3 => simp at h
        next hcond3 =>
          by_cases hpt : report.nextPageToken = true
          · simp only [if_pos hpt] at h
            split at h
            next e2 t heqf =>
              simp at h
              subst h
              split at heqf
              next e3 s3 heqf2 =>
                simp at heqf
                obtain ⟨c, m, hcm⟩ := fetchPages_error_pair env _ _ _ _ heqf2
                rw [heqf.1] at hcm
                simp at hcm
              next pages s3 heqf2 => simp at heqf
            next pages t heqf => simp at h
          · simp only [if_neg hpt] at h
            simp at h

theorem apiFns_no_sampling (env : Env) (orig : DateRange) :
    ∀ fuel : Nat,
      (∀ req s, req.samplingLevel = smallSamplingLevel →
        ((apiFns env orig fuel).1 req s).1 ≠ .error .sampling) ∧
      (∀ req drs s, req.samplingLevel = smallSamplingLevel →
        ((apiFns env orig fuel).2 req drs s).1 ≠ .error .sampling) := by
  intro fuel
  induction fuel with
  | zero =>
    constructor
    · intro req s _ h; simp [apiFns] at h
    · intro req drs s hreq
      exact getReportRowsByDatesBody_no_sampling _
        (fun _ _ _ h => by simp at h) req drs s hreq
  | succ fuel ih =>
    have h1 : ∀ req s, req.samplingLevel = smallSamplingLevel →
        ((apiFns env orig (fuel + 1)).1 req s).1 ≠ .error .sampling := by
      intro req s hreq
      rw [apiFns_succ]
      exact getReportRowsFromAPIBody_no_sampling env orig _
        (fun req' drs t hreq' h => by
          rw [mergedByDates_error] at h
          exact ih.2 req' drs t hreq' h)
        req s hreq
    exact ⟨h1, fun req drs s hreq =>
      getReportRowsByDatesBody_no_sampling _ (fun req' s' => h1 req' s') req drs s hreq⟩

theorem getReportFromAPI_no_sampling (env : Env) (orig : DateRange) (fuel : Nat)
    (req : ReportRequest) (s : St)
    (hreq : req.samplingLevel = smallSamplingLevel) :
    (getReportFromAPI env orig fuel req s).1 ≠ .error .sampling := by
  intro h
  simp only [getReportFromAPI] at h
  split at h
  next e s' heq =>
    simp at h
    subst h
    exact (apiFns_no_sampling env orig fuel).1 req s hreq
      (by show (getReportRowsFromAPI env orig fuel req s).1 = Except.error ApiError.sampling
          rw [heq])
  next rows s' heq => simp at h

theorem makeReportingAPIRequest_ok (env : Env) (req : ReportRequest) (s : St)
    (r : Report) (h : env.fetch s.fetchLog.length req = .httpOk r) :
    (makeReportingAPIRequest env req s).1 = .ok r := by
  simp [makeReportingAPIRequest, concurrentRequestsCountLessThanMax_fetchLog,
    incrementConcurrentRequests, h]

theorem getReport_no_sampling (env : Env) (fuel : Nat) (req : ReportRequest)
    (s : St) : (getReport env fuel req s).1 ≠ .error .sampling := by
  intro h
  unfold getReport at h
  rcases ha : getReportAttempt env fuel req s with ⟨res, st⟩
  rw [ha] at h
  cases res with
  | ok r => simp at h
  | error e =>
    cases e with
    | sampling =>
      simp only [] at h
      exact getReportFromAPI_no_sampling env (dr0 req) fuel
        { req with samplingLevel := smallSamplingLevel } st rfl h
    | cacheRead => simp at h
    | webVitals c => simp at h
    | http c m => simp at h
    | outOfFuel => simp at h

/-- C2: (1) a single-day sub-request (its one date range has equal start
and end) issued while the original request spans several days, whose
response is sampled although small sampling was not requested, makes
`getReportRowsFromAPI` raise the internal `SamplingError`; (2) `getReport`
never lets a `SamplingError` escape to the caller, whatever the
environment, fuel, request and state; (3) when the attempt inside
`getReport` ends in a `SamplingError`, `getReport` re-issues the entire
original request — with its original, full date ranges — through the pure
API path with `samplingLevel` forced to `'SMALL'`. -/
theorem c2_sampling_error :
    (∀ (env : Env) (orig : DateRange) (fuel : Nat) (req : ReportRequest)
        (s : St) (report : Report),
        (dr0 req).startDate = (dr0 req).endDate →
        req.samplingLevel ≠ smallSamplingLevel →
        orig.startDate ≠ orig.endDate →
        env.fetch s.fetchLog.length req = .httpOk report →
        report.sampled = true →
          (getReportRowsFromAPI env orig (fuel + 1) req s).1 = .error .sampling) ∧
      (∀ (env : Env) (fuel : Nat) (req : ReportRequest) (s : St),
        (getReport env fuel req s).1 ≠ .error .sampling) ∧
      (∀ (env : Env) (fuel : Nat) (req : ReportRequest) (s s1 : St),
        getReportAttempt env fuel req s = (.error .sampling, s1) →
          getReport env fuel req s =
            getReportFromAPI env (dr0 req) fuel
              { req with samplingLevel := smallSamplingLevel } s1 ∧
          ({ req with samplingLevel := smallSamplingLevel } :
              ReportRequest).dateRanges = req.dateRanges) := by
  refine ⟨?_, getReport_no_sampling, ?_⟩
  · intro env orig fuel req s report hsd hsmall horig hfetch hsampled
    rw [getReportRowsFromAPI_succ, getReportRowsFromAPIBody.eq_1]
    rw [if_neg (by simp [hsd])]
    split
    next e s' heq =>
      have hok := makeReportingAPIRequest_ok env req
        { s with progressTotal := s.progressTotal +
            ((getDatesInRange (dr0 req).startDate (dr0 req).endDate).length : Int) }
        report (by simpa using hfetch)
      rw [heq] at hok
      simp at hok
    next rep s' heq =>
      have hok := makeReportingAPIRequest_ok env req
        { s with progressTotal := s.progressTotal +
            ((getDatesInRange (dr0 req).startDate (dr0 req).endDate).length : Int) }
        report (by simpa using hfetch)
      rw [heq] at hok
      simp at hok
      subst hok
      rw [if_neg (by simp [hsd])]
      rw [if_pos ⟨⟨hsampled, hsmall⟩, hsd, horig⟩]
  · intro env fuel req s s1 hattempt
    constructor
    · unfold getReport
      rw [hattempt]
    · rfl

/-- Witness for C2 at a concrete sampled environment: the raise condition
on a single-day sub-request of the multi-day original range ⟨1, 5⟩, the
absence of escaping `SamplingError`s, and the concrete forced-small
re-issue after a sampling failure of the two-day request. -/
theorem c2_sampling_error_witness :
    ((dr0 reqSimple).startDate = (dr0 reqSimple).endDate ∧
        reqSimple.samplingLevel ≠ smallSamplingLevel ∧
        (⟨1, 5⟩ : DateRange).startDate ≠ (⟨1, 5⟩ : DateRange).endDate ∧
        envSampled.fetch St.init.fetchLog.length reqSimple = .httpOk reportSampled ∧
        reportSampled.sampled = true ∧
        (getReportRowsFromAPI envSampled ⟨1, 5⟩ 1 reqSimple St.init).1 =
          .error .sampling) ∧
      (getReport envSampled 2 reqTwoDay St.init).1 ≠ .error .sampling ∧
      (getReportAttempt envSampled 2 reqTwoDay St.init =
          (.error .sampling, (getReportAttempt envSampled 2 reqTwoDay St.init).2) ∧
        getReport envSampled 2 reqTwoDay St.init =
          getReportFromAPI envSampled (dr0 reqTwoDay) 2
            { reqTwoDay with samplingLevel := smallSamplingLevel }
            (getReportAttempt envSampled 2 reqTwoDay St.init).2 ∧
        ({ reqTwoDay with samplingLevel := smallSamplingLevel } :
            ReportRequest).dateRanges = reqTwoDay.dateRanges) :=
  ⟨⟨by decide, by decide, by decide, by decide, by decide,
      c2_sampling_error.1 envSampled ⟨1, 5⟩ 0 reqSimple St.init reportSampled
        (by decide) (by decide) (by decide) (by decide) (by decide)⟩,
    c2_sampling_error.2.1 envSampled 2 reqTwoDay St.init,
    by
      have h := c2_sampling_error.2.2 envSampled 2 reqTwoDay St.init
        (getReportAttempt envSampled 2 reqTwoDay St.init).2 (by decide)
      exact ⟨by decide, h.1, h.2⟩⟩

/-- C3: for a single-day range, a declared row count of exactly 999,999
succeeds (no row-limit failure, given an otherwise plain response), while
a row count of 1,000,000 or more fails with
`WebVitalsError('row_limit_exceeded')`; for a multi-day range (not
containing yesterday or today) a row count of 1,000,000 or more does not
fail but is re-planned as one sub-range per calendar day and re-fetched
through `getReportRowsByDatesFromAPI`. -/
theorem c3_row_limit :
    (∀ (env : Env) (orig : DateRange) (fuel : Nat) (req : ReportRequest)
        (s : St) (report : Report),
        (dr0 req).startDate = (dr0 req).endDate →
        env.fetch s.fetchLog.length req = .httpOk report →
        report.rowCount = 999999 →
        report.sampled = false →
        report.nextPageToken = false →
          ∃ rows, (getReportRowsFromAPI env orig (fuel + 1) req s).1 = .ok rows) ∧
      (∀ (env : Env) (orig : DateRange) (fuel : Nat) (req : ReportRequest)
        (s : St) (report : Report),
        (dr0 req).startDate = (dr0 req).endDate →
        env.fetch s.fetchLog.length req = .httpOk report →
        1000000 ≤ report.rowCount →
        report.sampled = false →
          (getReportRowsFromAPI env orig (fuel + 1) req s).1 =
            .error (.webVitals rowLimitExceededCode)) ∧
      (∀ (env : Env) (orig : DateRange) (fuel : Nat) (req : ReportRequest)
        (s : St) (report : Report),
        (dr0 req).startDate ≠ (dr0 req).endDate →
        (dr0 req).endDate < dateOffset env (-1) →
        env.fetch s.fetchLog.length req = .httpOk report →
        1000000 ≤ report.rowCount →
          ∃ s', getReportRowsFromAPI env orig (fuel + 1) req s =
            getReportRowsByDatesFromAPI env orig fuel req
              ((getDatesInRange (dr0 req).startDate (dr0 req).endDate).map
                fun d => ⟨d, d⟩) s') := by
  refine ⟨?_, ?_, ?_⟩
  · intro env orig fuel req s report hsd hfetch hcount hsampled hnpt
    rw [getReportRowsFromAPI_succ, getReportRowsFromAPIBody.eq_1]
    rw [if_neg (by simp [hsd])]
    split
    next e s' heq =>
      have hok := makeReportingAPIRequest_ok env req
        { s with progressTotal := s.progressTotal +
            ((getDatesInRange (dr0 req).startDate (dr0 req).endDate).length : Int) }
        report (by simpa using hfetch)
      rw [heq] at hok
      simp at hok
    next rep s' heq =>
      have hok := makeReportingAPIRequest_ok env req
        { s with progressTotal := s.progressTotal +
            ((getDatesInRange (dr0 req).startDate (dr0 req).endDate).length : Int) }
        report (by simpa using hfetch)
      rw [heq] at hok
      simp at hok
      subst hok
      rw [if_neg (by simp [hsd])]
      rw [if_neg (by simp [hsampled])]
      rw [if_neg (by omega)]
      rw [if_neg (by simp [hnpt])]
      exact ⟨_, rfl⟩
  · intro env orig fuel req s report hsd hfetch hcount hsampled
    rw [getReportRowsFromAPI_succ, getReportRowsFromAPIBody.eq_1]
    rw [if_neg (by simp [hsd])]
    split
    next e s' heq =>
      have hok := makeReportingAPIRequest_ok env req
        { s with progressTotal := s.progressTotal +
            ((getDatesInRange (dr0 req).startDate (dr0 req).endDate).length : Int) }
        report (by simpa using hfetch)
      rw [heq] at hok
      simp at hok
    next rep s' heq =>
      have hok := makeReportingAPIRequest_ok env req
        { s with progressTotal := s.progressTotal +
            ((getDatesInRange (dr0 req).startDate (dr0 req).endDate).length : Int) }
        report (by simpa using hfetch)
      rw [heq] at hok
      simp at hok
      subst hok
      rw [if_neg (by simp [hsd])]
      rw [if_neg (by simp [hsampled])]
      rw [if_pos hcount]
  · intro env orig fuel req s report hmulti hfresh hfetch hcount
    rw [getReportRowsFromAPI_succ, getReportRowsFromAPIBody.eq_1]
    rw [if_neg (by
      intro hc
      rcases hc with ⟨-, -, -, hy⟩
      omega)]
    split
    next e s' heq =>
      have hok := makeReportingAPIRequest_ok env req
        { s with progressTotal := s.progressTotal +
            ((getDatesInRange (dr0 req).startDate (dr0 req).endDate).length : Int) }
        report (by simpa using hfetch)
      rw [heq] at hok
      simp at hok
    next rep s' heq =>
      have hok := makeReportingAPIRequest_ok env req
        { s with progressTotal := s.progressTotal +
            ((getDatesInRange (dr0 req).startDate (dr0 req).endDate).length : Int) }
        report (by simpa using hfetch)
      rw [heq] at hok
      simp at hok
      subst hok
      rw [if_pos ⟨hmulti, Or.inr hcount⟩]
      exact ⟨_, rfl⟩

/-- Witness for C3 at the two concrete boundary reports (999,999 and
1,000,000 declared rows) on a single-day and a two-day request. -/
theorem c3_row_limit_witness :
    ((dr0 reqSimple).startDate = (dr0 reqSimple).endDate ∧
        envAt999999.fetch St.init.fetchLog.length reqSimple = .httpOk reportAt999999 ∧
        reportAt999999.rowCount = 999999 ∧
        (∃ rows, (getReportRowsFromAPI envAt999999 ⟨3, 3⟩ 1 reqSimple St.init).1 =
          .ok rows)) ∧
      (envAtLimit.fetch St.init.fetchLog.length reqSimple = .httpOk reportAtLimit ∧
        1000000 ≤ reportAtLimit.rowCount ∧
        (getReportRowsFromAPI envAtLimit ⟨3, 3⟩ 1 reqSimple St.init).1 =
          .error (.webVitals rowLimitExceededCode)) ∧
      ((dr0 reqTwoDay).startDate ≠ (dr0 reqTwoDay).endDate ∧
        (dr0 reqTwoDay).endDate < dateOffset envAtLimit (-1) ∧
        ∃ s', getReportRowsFromAPI envAtLimit ⟨3, 4⟩ 1 reqTwoDay St.init =
          getReportRowsByDatesFromAPI envAtLimit ⟨3, 4⟩ 0 reqTwoDay
            ((getDatesInRange (dr0 reqTwoDay).startDate (dr0 reqTwoDay).endDate).map
              fun d => ⟨d, d⟩) s') :=
  ⟨⟨by decide, by decide, by decide,
      c3_row_limit.1 envAt999999 ⟨3, 3⟩ 0 reqSimple St.init reportAt999999
        (by decide) (by decide) (by decide) (by decide) (by decide)⟩,
    ⟨by decide, by decide,
      c3_row_limit.2.1 envAtLimit ⟨3, 3⟩ 0 reqSimple St.init reportAtLimit
        (by decide) (by decide) (by decide) (by decide)⟩,
    ⟨by decide, by decide,
      c3_row_limit.2.2 envAtLimit ⟨3, 4⟩ 0 reqTwoDay St.init reportAtLimit
        (by decide) (by decide) (by decide) (by decide)⟩⟩

theorem decrementConcurrentRequests_db (s : St) :
    (decrementConcurrentRequests s).db = s.db ∧
      (decrementConcurrentRequests s).dbReads = s.dbReads := by
  simp only [decrementConcurrentRequests]
  cases h : s.pendingRequestDeferreds.getLast? <;> simp [h]

theorem concurrentRequestsCountLessThanMax_db (s : St) :
    (concurrentRequestsCountLessThanMax s).db = s.db ∧
      (concurrentRequestsCountLessThanMax s).dbReads = s.dbReads := by
  unfold concurrentRequestsCountLessThanMax
  split <;> simp

theorem makeReportingAPIRequest_db (env : Env) (req : ReportRequest) (s : St) :
    ((makeReportingAPIRequest env req s).2).db = s.db ∧
      ((makeReportingAPIRequest env req s).2).dbReads = s.dbReads := by
  simp only [makeReportingAPIRequest]
  split <;> (try split) <;> (try split) <;>
    simp [decrementConcurrentRequests_db, concurrentRequestsCountLessThanMax_db,
      incrementConcurrentRequests,
      (decrementConcurrentRequests_db _).1, (decrementConcurrentRequests_db _).2,
      (concurrentRequestsCountLessThanMax_db _).1,
      (concurrentRequestsCountLessThanMax_db _).2]

theorem makeReportingAPIRequest_db_pair (env : Env) (req : ReportRequest)
    (s : St) (res : Except ApiError Report) (t : St)
    (h : makeReportingAPIRequest env req s = (res, t)) :
    t.db = s.db ∧ t.dbReads = s.dbReads := by
  have h1 := makeReportingAPIRequest_db env req s
  rw [h] at h1
  exact h1

theorem fetchPages_db (env : Env) :
    ∀ (reqs : List ReportRequest) (s : St),
      ((fetchPages env reqs s).2).db = s.db ∧
        ((fetchPages env reqs s).2).dbReads = s.dbReads := by
  intro reqs
  induction reqs with
  | nil => intro s; exact ⟨rfl, rfl⟩
  | cons req rest ih =>
    intro s
    simp only [fetchPages]
    split
    next e s' heq => exact makeReportingAPIRequest_db_pair env req s _ s' heq
    next page s' heq =>
      have h1 := makeReportingAPIRequest_db_pair env req s _ s' heq
      split
      next e2 s'' heq2 =>
        have h2 := ih { s' with progressCur := s'.progressCur + 1 }
        rw [heq2] at h2
        exact ⟨h2.1.trans h1.1, h2.2.trans h1.2⟩
      next pages s'' heq2 =>
        have h2 := ih { s' with progressCur := s'.progressCur + 1 }
        rw [heq2] at h2
        exact ⟨h2.1.trans h1.1, h2.2.trans h1.2⟩

theorem fetchPages_db_pair (env : Env) (reqs : List ReportRequest) (s : St)
    (res : Except ApiError (List Report)) (t : St)
    (h : fetchPages env reqs s = (res, t)) :
    t.db = s.db ∧ t.dbReads = s.dbReads := by
  have h1 := fetchPages_db env reqs s
  rw [h] at h1
  exact h1

theorem processRow_db (env : Env) (req : ReportRequest) (g sm : Bool)
    (row : ReportRow) (s : St) :
    ((processRow env req g sm row s).2).db = s.db ∧
      ((processRow env req g sm row s).2).dbReads = s.dbReads := by
  simp only [processRow]
  split <;> simp

theorem processRows_db (env : Env) (req : ReportRequest) (g sm : Bool) :
    ∀ (rows : List ReportRow) (s : St),
      ((processRows env req g sm rows s).2).db = s.db ∧
        ((processRows env req g sm rows s).2).dbReads = s.dbReads := by
  intro rows
  induction rows with
  | nil => intro s; exact ⟨rfl, rfl⟩
  | cons row rest ih =>
    intro s
    simp only [processRows]
    have h1 := processRow_db env req g sm row s
    have h2 := ih (processRow env req g sm row s).2
    exact ⟨h2.1.trans h1.1, h2.2.trans h1.2⟩

theorem getReportRowsByDatesBody_db
    (f : ReportRequest → St → Except ApiError (List ReportRow) × St)
    (hf : ∀ req s, (((f req s).2).db = s.db ∧ ((f req s).2).dbReads = s.dbReads)) :
    ∀ (req : ReportRequest) (drs : List DateRange) (s : St),
      ((getReportRowsByDatesBody f req drs s).2).db = s.db ∧
        ((getReportRowsByDatesBody f req drs s).2).dbReads = s.dbReads := by
  intro req drs
  induction drs with
  | nil => intro s; exact ⟨rfl, rfl⟩
  | cons dr rest ih =>
    intro s
    simp only [getReportRowsByDatesBody]
    split
    next e s' heq =>
      have h1 := hf (getReportRequestForDates req dr) s
      rw [heq] at h1
      exact h1
    next rows s' heq =>
      have h1 := hf (getReportRequestForDates req dr) s
      rw [heq] at h1
      split
      next e2 s'' heq2 =>
        have h2 := ih s'
        rw [heq2] at h2
        exact ⟨h2.1.trans h1.1, h2.2.trans h1.2⟩
      next rls s'' heq2 =>
        have h2 := ih s'
        rw [heq2] at h2
        exact ⟨h2.1.trans h1.1, h2.2.trans h1.2⟩

theorem getReportRowsFromAPIBody_db (env : Env) (orig : DateRange)
    (byDates : ReportRequest → List DateRange → St →
      Except ApiError (List ReportRow) × St)
    (hby : ∀ req drs s, ((byDates req drs s).2).db = s.db ∧
      ((byDates req drs s).2).dbReads = s.dbReads) :
    ∀ (req : ReportRequest) (s : St),
      ((getReportRowsFromAPIBody env orig byDates req s).2).db = s.db ∧
        ((getReportRowsFromAPIBody env orig byDates req s).2).dbReads = s.dbReads := by
  intro req s
  rw [getReportRowsFromAPIBody.eq_1]
  by_cases hA : (dr0 req).endDate ≠ (dr0 req).startDate ∧
      req.samplingLevel ≠ smallSamplingLevel ∧
      (dr0 req).startDate < dateOffset env (-1) ∧
      dateOffset env (-1) ≤ (dr0 req).endDate
  · rw [if_pos hA]
    exact hby req _ s
  · rw [if_neg hA]
    rcases heq : makeReportingAPIRequest env req
        { s with progressTotal := s.progressTotal +
            ((getDatesInRange (dr0 req).startDate (dr0 req).endDate).length : Int) }
      with ⟨res, s'⟩
    have h1 := makeReportingAPIRequest_db_pair env req
      { s with progressTotal := s.progressTotal +
          ((getDatesInRange (dr0 req).startDate (dr0 req).endDate).length : Int) }
      res s' heq
    cases res with
    | error e => exact h1
    | ok report =>
      split
      next e2 s2 hContra => simp at hContra
      next report2 s2 hok2 =>
      injection hok2 with h1e h2e
      injection h1e with h1e
      subst h1e
      subst h2e
      by_cases hB : (dr0 req).startDate ≠ (dr0 req).endDate ∧
          ((report.sampled = true ∧ req.samplingLevel ≠ smallSamplingLevel) ∨
            1000000 ≤ report.rowCount)
      · rw [if_pos hB]
        have h2 := hby req
          ((getDatesInRange (dr0 req).startDate (dr0 req).endDate).map fun d => ⟨d, d⟩)
          { s' with progressTotal := s'.progressTotal -
              ((getDatesInRange (dr0 req).startDate (dr0 req).endDate).length : Int) }
        exact ⟨h2.1.trans h1.1, h2.2.trans h1.2⟩
      · rw [if_neg hB]
        by_cases hC : (report.sampled = true ∧
            req.samplingLevel ≠ smallSamplingLevel) ∧
            (dr0 req).startDate = (dr0 req).endDate ∧
            orig.startDate ≠ orig.endDate
        · rw [if_pos hC]
          exact h1
        · rw [if_neg hC]
          by_cases hD : 1000000 ≤ report.rowCount
          · rw [if_pos hD]
            exact h1
          · rw [if_neg hD]
            by_cases hE : report.nextPageToken = true
            · rw [if_pos hE]
              rcases heqf : fetchPages env
                  (buildPageRequests req report.rows.length report.rowCount)
                  { s' with
                      progressCur := s'.progressCur +
                        ((getDatesInRange (dr0 req).startDate
                          (dr0 req).endDate).length : Int),
                      progressTotal := s'.progressTotal +
                        ((buildPageRequests req report.rows.length
                          report.rowCount).length : Int) }
                with ⟨res2, t⟩
              have h2 := fetchPages_db_pair env
                (buildPageRequests req report.rows.length report.rowCount) _ res2 t heqf
              cases res2 with
              | error e2 => exact ⟨h2.1.trans h1.1, h2.2.trans h1.2⟩
              | ok pages =>
                have h3 := processRows_db env req report.golden report.sampled
                  (report.rows ++ pages.foldl (fun acc p => acc ++ p.rows) []) t
                exact ⟨(h3.1.trans h2.1).trans h1.1, (h3.2.trans h2.2).trans h1.2⟩
            · rw [if_neg hE]
              have h3 := processRows_db env req report.golden report.sampled report.rows
                { s' with progressCur := s'.progressCur +
                    ((getDatesInRange (dr0 req).startDate (dr0 req).endDate).length : Int) }
              exact ⟨h3.1.trans h1.1, h3.2.trans h1.2⟩

theorem apiFns_db (env : Env) (orig : DateRange) :
    ∀ fuel : Nat,
      (∀ req s, (((apiFns env orig fuel).1 req s).2).db = s.db ∧
        (((apiFns env orig fuel).1 req s).2).dbReads = s.dbReads) ∧
      (∀ req drs s, (((apiFns env orig fuel).2 req drs s).2).db = s.db ∧
        (((apiFns env orig fuel).2 req drs s).2).dbReads = s.dbReads) := by
  intro fuel
  induction fuel with
  | zero =>
    constructor
    · intro req s; exact ⟨rfl, rfl⟩
    · intro req drs s
      exact getReportRowsByDatesBody_db _ (fun _ _ => ⟨rfl, rfl⟩) req drs s
  | succ fuel ih =>
    have h1 : ∀ req s, (((apiFns env orig (fuel + 1)).1 req s).2).db = s.db ∧
        (((apiFns env orig (fuel + 1)).1 req s).2).dbReads = s.dbReads := by
      intro req s
      rw [apiFns_succ]
      exact getReportRowsFromAPIBody_db env orig _
        (fun req' drs t => by
          rw [mergedByDates_snd]
          exact ih.2 req' drs t)
        req s
    exact ⟨h1, fun req drs s =>
      getReportRowsByDatesBody_db _ (fun req' s' => h1 req' s') req drs s⟩

theorem getReportFromAPI_db (env : Env) (orig : DateRange) (fuel : Nat)
    (req : ReportRequest) (s : St) :
    ((getReportFromAPI env orig fuel req s).2).db = s.db ∧
      ((getReportFromAPI env orig fuel req s).2).dbReads = s.dbReads := by
  simp only [getReportFromAPI]
  split
  next e s' heq =>
    have h1 := (apiFns_db env orig fuel).1 req s
    rw [show (apiFns env orig fuel).1 req s = (.error e, s') from heq] at h1
    exact h1
  next rows s' heq =>
    have h1 := (apiFns_db env orig fuel).1 req s
    rw [show (apiFns env orig fuel).1 req s = (.ok rows, s') from heq] at h1
    exact h1

theorem processRow_sampled_state (env : Env) (req : ReportRequest) (g : Bool)
    (row : ReportRow) (s : St) : (processRow env req g true row s).2 = s := by
  simp [processRow]

theorem processRows_sampled_state (env : Env) (req : ReportRequest) (g : Bool) :
    ∀ (rows : List ReportRow) (s : St), (processRows env req g true rows s).2 = s := by
  intro rows
  induction rows with
  | nil => intro s; rfl
  | cons row rest ih =>
    intro s
    simp only [processRows]
    rw [processRow_sampled_state env req g row s]
    exact ih s

theorem getReportFromAPI_db_pair (env : Env) (orig : DateRange) (fuel : Nat)
    (req : ReportRequest) (s : St) (res : Except ApiError ReportResult) (t : St)
    (h : getReportFromAPI env orig fuel req s = (res, t)) :
    t.db = s.db ∧ t.dbReads = s.dbReads := by
  have h1 := getReportFromAPI_db env orig fuel req s
  rw [h] at h1
  exact h1

theorem addRowToSegmentData_mem (sid : Option String) (row : ReportRow) :
    ∀ (segs : List (Option String × List ReportRow))
      (q : Option String × List ReportRow),
      q ∈ addRowToSegmentData sid row segs →
      ∀ r ∈ q.2, (∃ q' ∈ segs, r ∈ q'.2) ∨ r = row := by
  intro segs
  induction segs with
  | nil =>
    intro q hq r hr
    simp [addRowToSegmentData] at hq
    subst hq
    simp at hr
    exact Or.inr hr
  | cons p rest ih =>
    intro q hq r hr
    simp only [addRowToSegmentData] at hq
    by_cases hsid : p.1 = sid
    · rcases p with ⟨psid, prws⟩
      rw [if_pos hsid] at hq
      rcases List.mem_cons.mp hq with rfl | hq2
      · simp only at hr
        rcases List.mem_append.mp hr with hr1 | hr2
        · exact Or.inl ⟨(psid, prws), by simp, hr1⟩
        · simp at hr2
          exact Or.inr hr2
      · exact Or.inl ⟨q, by simp [hq2], hr⟩
    · rcases p with ⟨psid, prws⟩
      rw [if_neg hsid] at hq
      rcases List.mem_cons.mp hq with rfl | hq2
      · exact Or.inl ⟨(psid, prws), by simp, hr⟩
      · rcases ih q hq2 r hr with ⟨q', hq', hr'⟩ | hrow
        · exact Or.inl ⟨q', by simp [hq'], hr'⟩
        · exact Or.inr hrow

theorem addRowToDateData_mem (date : Nat) (sid : Option String) (row : ReportRow) :
    ∀ (m : List (Nat × List (Option String × List ReportRow)))
      (p : Nat × List (Option String × List ReportRow)),
      p ∈ addRowToDateData date sid row m →
      ∀ q ∈ p.2, ∀ r ∈ q.2,
        (∃ p' ∈ m, ∃ q' ∈ p'.2, r ∈ q'.2) ∨ r = row := by
  intro m
  induction m with
  | nil =>
    intro p hp q hq r hr
    simp [addRowToDateData] at hp
    subst hp
    simp at hq
    subst hq
    simp at hr
    exact Or.inr hr
  | cons pd rest ih =>
    intro p hp q hq r hr
    simp only [addRowToDateData] at hp
    by_cases hd : pd.1 = date
    · rcases pd with ⟨d, segs⟩
      rw [if_pos hd] at hp
      rcases List.mem_cons.mp hp with rfl | hp2
      · simp only at hq
        rcases addRowToSegmentData_mem sid row segs q hq r hr with ⟨q', hq', hr'⟩ | hrow
        · exact Or.inl ⟨(d, segs), by simp, q', hq', hr'⟩
        · exact Or.inr hrow
      · exact Or.inl ⟨p, by simp [hp2], q, hq, hr⟩
    · rcases pd with ⟨d, segs⟩
      rw [if_neg hd] at hp
      rcases List.mem_cons.mp hp with rfl | hp2
      · exact Or.inl ⟨(d, segs), by simp, q, hq, hr⟩
      · rcases ih p hp2 q hq r hr with ⟨p', hp', hrest⟩ | hrow
        · exact Or.inl ⟨p', by simp [hp'], hrest⟩
        · exact Or.inr hrow

theorem dateData_fold_cacheable (cacheable : List Nat) :
    ∀ (rows : List ReportRow) (m0 : List (Nat × List (Option String × List ReportRow))),
      (∀ p ∈ m0, ∀ q ∈ p.2, ∀ r ∈ q.2, r.rid ∈ cacheable) →
      ∀ p ∈ rows.foldl (fun m row =>
          if row.rid ∈ cacheable then
            addRowToDateData row.dateDim row.segmentDim row m
          else m) m0,
        ∀ q ∈ p.2, ∀ r ∈ q.2, r.rid ∈ cacheable := by
  intro rows
  induction rows with
  | nil => intro m0 h p hp q hq r hr; exact h p hp q hq r hr
  | cons row rest ih =>
    intro m0 h p hp q hq r hr
    simp only [List.foldl_cons] at hp
    by_cases hc : row.rid ∈ cacheable
    · rw [if_pos hc] at hp
      refine ih (addRowToDateData row.dateDim row.segmentDim row m0) ?_ p hp q hq r hr
      intro p' hp' q' hq' r' hr'
      rcases addRowToDateData_mem row.dateDim row.segmentDim row m0 p' hp' q' hq' r' hr'
        with ⟨p'', hp'', q'', hq'', hr''⟩ | hrow
      · exact h p'' hp'' q'' hq'' r' hr''
      · rw [hrow]; exact hc
    · rw [if_neg hc] at hp
      exact ih m0 h p hp q hq r hr

theorem dbPut_mem (db : List CacheEntry) (x e : CacheEntry)
    (h : e ∈ dbPut db x) : e ∈ db ∨ e = x := by
  simp only [dbPut] at h
  rcases List.mem_append.mp h with h1 | h2
  · exact Or.inl (List.mem_of_mem_filter h1)
  · simp at h2
    exact Or.inr h2

theorem segsFold_mem (cacheable : List Nat) (vid hash date : Nat) :
    ∀ (segs : List (Option String × List ReportRow)) (db0 : List CacheEntry),
      (∀ q ∈ segs, ∀ r ∈ q.2, r.rid ∈ cacheable) →
      ∀ e ∈ segs.foldl (fun db srws =>
          if srws.2.length ≠ 0 then
            dbPut db ⟨vid, srws.1, hash, toISODate date, srws.2⟩
          else db) db0,
        e ∈ db0 ∨ ∀ r ∈ e.json, r.rid ∈ cacheable := by
  intro segs
  induction segs with
  | nil => intro db0 _ e he; exact Or.inl he
  | cons srws rest ih =>
    intro db0 hseg e he
    simp only [List.foldl_cons] at he
    by_cases hlen : srws.2.length ≠ 0
    · rw [if_pos hlen] at he
      rcases ih (dbPut db0 ⟨vid, srws.1, hash, toISODate date, srws.2⟩)
          (fun q hq => hseg q (by simp [hq])) e he with h1 | h2
      · rcases dbPut_mem db0 _ e h1 with h3 | h4
        · exact Or.inl h3
        · subst h4
          exact Or.inr fun r hr => hseg srws (by simp) r hr
      · exact Or.inr h2
    · rw [if_neg hlen] at he
      exact ih db0 (fun q hq => hseg q (by simp [hq])) e he

theorem dateDataFold_mem (cacheable : List Nat) (vid hash : Nat) :
    ∀ (dateData : List (Nat × List (Option String × List ReportRow)))
      (db0 : List CacheEntry),
      (∀ p ∈ dateData, ∀ q ∈ p.2, ∀ r ∈ q.2, r.rid ∈ cacheable) →
      ∀ e ∈ dateData.foldl (fun db dsegs =>
          dsegs.2.foldl (fun db srws =>
            if srws.2.length ≠ 0 then
              dbPut db ⟨vid, srws.1, hash, toISODate dsegs.1, srws.2⟩
            else db) db) db0,
        e ∈ db0 ∨ ∀ r ∈ e.json, r.rid ∈ cacheable := by
  intro dateData
  induction dateData with
  | nil => intro db0 _ e he; exact Or.inl he
  | cons dsegs rest ih =>
    intro db0 hall e he
    simp only [List.foldl_cons] at he
    rcases ih _ (fun p hp => hall p (by simp [hp])) e he with h1 | h2
    · rcases segsFold_mem cacheable vid hash dsegs.1 dsegs.2 db0
          (fun q hq => hall dsegs (by simp) q hq) e h1 with h3 | h4
      · exact Or.inl h3
      · exact Or.inr h4
    · exact Or.inr h2

/-- C4: a request with `samplingLevel = 'SMALL'` goes straight to the pure
API path: `getReport` performs no cache lookup (the store read counter is
unchanged) and no cache write (the store contents are unchanged);
processing the rows of a sampled response leaves the module state — in
particular the cacheable-row set — untouched, even when the response is
flagged golden; and `updateCachedData` persists only rows that are in the
cacheable-row set (every record it adds consists solely of marked rows,
and rows are only ever marked for golden, non-sampled responses). -/
theorem c4_small_no_cache :
    (∀ (env : Env) (fuel : Nat) (req : ReportRequest) (s : St),
        req.samplingLevel = smallSamplingLevel →
          ((getReport env fuel req s).2).db = s.db ∧
            ((getReport env fuel req s).2).dbReads = s.dbReads) ∧
      (∀ (env : Env) (req : ReportRequest) (golden : Bool)
        (rows : List ReportRow) (s : St),
        ((processRows env req golden true rows s).2).cacheableRows =
          s.cacheableRows) ∧
      (∀ (vid hash : Nat) (rows : List ReportRow) (s : St)
        (e : CacheEntry), e ∈ (updateCachedData vid hash rows s).db →
          e ∈ s.db ∨ ∀ r ∈ e.json, r.rid ∈ s.cacheableRows) := by
  refine ⟨?_, ?_, ?_⟩
  · intro env fuel req s hreq
    unfold getReport getReportAttempt
    rw [if_neg (by simp [hreq])]
    rcases hapi : getReportFromAPI env (dr0 req) fuel req s with ⟨res, s'⟩
    have h1 := getReportFromAPI_db_pair env (dr0 req) fuel req s res s' hapi
    cases res with
    | ok r => exact h1
    | error e =>
      cases e with
      | sampling =>
        have h2 := getReportFromAPI_db env (dr0 req) fuel
          { req with samplingLevel := smallSamplingLevel } s'
        exact ⟨h2.1.trans h1.1, h2.2.trans h1.2⟩
      | cacheRead => exact h1
      | webVitals c => exact h1
      | http c m => exact h1
      | outOfFuel => exact h1
  · intro env req golden rows s
    rw [processRows_sampled_state env req golden rows s]
  · intro vid hash rows s e he
    simp only [updateCachedData] at he
    exact dateDataFold_mem s.cacheableRows vid hash _ s.db
      (dateData_fold_cacheable s.cacheableRows rows [] (by simp)) e he

/-- Witness for C4: a concrete forced-small run on the sampled
environment, a concrete sampled row-processing pass on a golden response,
and a concrete `updateCachedData` call persisting a marked row. -/
theorem c4_small_no_cache_witness :
    (reqSmall.samplingLevel = smallSamplingLevel ∧
        ((getReport envSampled 2 reqSmall St.init).2).db = St.init.db ∧
        ((getReport envSampled 2 reqSmall St.init).2).dbReads = St.init.dbReads) ∧
      ((processRows envSampled reqSimple true true
          [⟨1, none, 5, 7⟩] St.init).2).cacheableRows = St.init.cacheableRows ∧
      ((⟨1, none, 0, 5, [⟨1, none, 5, 7⟩]⟩ : CacheEntry) ∈
          (updateCachedData 1 0 [⟨1, none, 5, 7⟩]
            { St.init with cacheableRows := [1] }).db ∧
        ((⟨1, none, 0, 5, [⟨1, none, 5, 7⟩]⟩ : CacheEntry) ∈
            ({ St.init with cacheableRows := [1] } : St).db ∨
          ∀ r ∈ (⟨1, none, 0, 5, [⟨1, none, 5, 7⟩]⟩ : CacheEntry).json,
            r.rid ∈ ({ St.init with cacheableRows := [1] } : St).cacheableRows)) :=
  ⟨⟨rfl, c4_small_no_cache.1 envSampled 2 reqSmall St.init rfl⟩,
    c4_small_no_cache.2.1 envSampled reqSimple true [⟨1, none, 5, 7⟩] St.init,
    ⟨by decide,
      c4_small_no_cache.2.2 1 0 [⟨1, none, 5, 7⟩]
        { St.init with cacheableRows := [1] }
        ⟨1, none, 0, 5, [⟨1, none, 5, 7⟩]⟩ (by decide)⟩⟩

theorem getReportFromAPI_ok_shape (env : Env) (orig : DateRange) (fuel : Nat)
    (req : ReportRequest) (s : St) (r : ReportResult) (t : St)
    (h : getReportFromAPI env orig fuel req s = (.ok r, t)) :
    r.source = some srcNetwork ∧ ∃ b, r.isSampled = some b := by
  simp only [getReportFromAPI] at h
  split at h
  next e s' heq => simp at h
  next rows s' heq =>
    simp at h
    rcases h with ⟨h1, h2⟩
    rw [← h1]
    exact ⟨rfl, ⟨_, rfl⟩⟩

theorem getReportFromCacheAndAPI_ok_shape (env : Env) (orig : DateRange)
    (fuel : Nat) (req : ReportRequest) (s : St) (r : ReportResult) (t : St)
    (h : getReportFromCacheAndAPI env orig fuel req s = (.ok r, t)) :
    r.isSampled = none ∧
      (r.source = some srcCache ∨ r.source = some srcNetwork ∨
        r.source = some srcMixed ∨ (r.source = none ∧ r.rows = [])) := by
  simp only [getReportFromCacheAndAPI] at h
  split at h
  next e s' heq => simp at h
  next networkReport s' heq =>
    split at h
    next e2 s'' heq2 => simp at h
    next cachedReport s'' heq2 =>
      simp at h
      rcases h with ⟨h1, h2⟩
      rw [← h1]
      refine ⟨rfl, ?_⟩
      by_cases hdb : env.dbOk = true
      · simp only [if_pos hdb] at heq ⊢
        by_cases havg : 100000 < env.avgRowsPerDay req.viewId
        · simp only [if_pos havg] at heq ⊢
          split
          next hm =>
            rw [hm] at heq
            rw [getReportRowsByDatesFromAPI_nil] at heq
            injection heq with he hs
            injection he with he
            subst he
            split
            next hc =>
              rw [hc]
              exact Or.inr (Or.inr (Or.inr ⟨rfl, rfl⟩))
            next hc => simp [sourcesNameMap]
          next hm =>
            split
            next hc => simp [sourcesNameMap]
            next hc => simp [sourcesNameMap]
        · simp only [if_neg havg] at heq ⊢
          split
          next hm =>
            rw [hm] at heq
            rw [getReportRowsByDatesFromAPI_nil] at heq
            injection heq with he hs
            injection he with he
            subst he
            split
            next hc =>
              rw [hc]
              exact Or.inr (Or.inr (Or.inr ⟨rfl, rfl⟩))
            next hc => simp [sourcesNameMap]
          next hm =>
            split
            next hc => simp [sourcesNameMap]
            next hc => simp [sourcesNameMap]
      · simp only [if_neg hdb] at heq ⊢
        by_cases havg : 100000 < env.avgRowsPerDay req.viewId
        · simp only [if_pos havg] at heq ⊢
          split
          next hm =>
            rw [hm] at heq
            rw [getReportRowsByDatesFromAPI_nil] at heq
            injection heq with he hs
            injection he with he
            subst he
            split
            next hc =>
              rw [hc]
              exact Or.inr (Or.inr (Or.inr ⟨rfl, rfl⟩))
            next hc => simp [sourcesNameMap]
          next hm =>
            split
            next hc => simp [sourcesNameMap]
            next hc => simp [sourcesNameMap]
        · simp only [if_neg havg] at heq ⊢
          split
          next hm =>
            rw [hm] at heq
            rw [getReportRowsByDatesFromAPI_nil] at heq
            injection heq with he hs
            injection he with he
            subst he
            split
            next hc =>
              rw [hc]
              exact Or.inr (Or.inr (Or.inr ⟨rfl, rfl⟩))
            next hc => simp [sourcesNameMap]
          next hm =>
            split
            next hc => simp [sourcesNameMap]
            next hc => simp [sourcesNameMap]

theorem getReportAttempt_ok_shape (env : Env) (fuel : Nat) (req : ReportRequest)
    (s : St) (r : ReportResult) (t : St)
    (h : getReportAttempt env fuel req s = (.ok r, t)) :
    (r.source = some srcNetwork ∧ ∃ b, r.isSampled = some b) ∨
      (r.isSampled = none ∧
        (r.source = some srcCache ∨ r.source = some srcNetwork ∨
          r.source = some srcMixed ∨ (r.source = none ∧ r.rows = []))) := by
  unfold getReportAttempt at h
  by_cases hreq : req.samplingLevel ≠ smallSamplingLevel
  · rw [if_pos hreq] at h
    rcases hc : getReportFromCacheAndAPI env (dr0 req) fuel req s with ⟨resc, stc⟩
    rw [hc] at h
    cases resc with
    | ok rc =>
      have h' : (Except.ok rc, stc) = ((Except.ok r : Except ApiError ReportResult), t) := h
      injection h' with he hs
      injection he with he
      subst he
      exact Or.inr (getReportFromCacheAndAPI_ok_shape env (dr0 req) fuel req s rc stc hc)
    | error e =>
      cases e with
      | cacheRead => exact Or.inl (getReportFromAPI_ok_shape env (dr0 req) fuel req _ r t h)
      | sampling => simp at h
      | webVitals c => simp at h
      | http c m => simp at h
      | outOfFuel => simp at h
  · rw [if_neg hreq] at h
    exact Or.inl (getReportFromAPI_ok_shape env (dr0 req) fuel req s r t h)

/-- C8, counterexample: a cache-path result whose `meta` has no boolean
`isSampled` — `getReportFromCacheAndAPI` returns `{rows, meta: {source}}`
with no `isSampled` field at all — and whose `source` is `undefined`
rather than one of `'cache'`/`'network'`/`'mixed'`: on a request whose
date range contains no missing and no cached days (here an empty range),
the source index is `0` and `sourcesNameMap[0]` is `undefined`.  This
refutes the claimed output shape at a concrete input. -/
theorem c8_counterexample :
    (getReport envSampled 1 reqEmptyRange St.init).1 =
      .ok { rows := [], source := none, isSampled := none } := by
  decide

/-- C8 as amended: every successful `getReport` result either comes from
the pure network path — `meta.source = 'network'` and `meta.isSampled` a
boolean — or from the cache-and-API path, where `meta.isSampled` is
absent (undefined) and `meta.source` is one of `'cache'`, `'network'`,
`'mixed'` except when neither a missing range nor cached rows
contributed, in which case `meta.source` is undefined and the row list is
empty. -/
theorem c8_amended (env : Env) (fuel : Nat) (req : ReportRequest) (s : St)
    (r : ReportResult) (t : St) (h : getReport env fuel req s = (.ok r, t)) :
    (r.source = some srcNetwork ∧ ∃ b, r.isSampled = some b) ∨
      (r.isSampled = none ∧
        (r.source = some srcCache ∨ r.source = some srcNetwork ∨
          r.source = some srcMixed ∨ (r.source = none ∧ r.rows = []))) := by
  unfold getReport at h
  rcases ha : getReportAttempt env fuel req s with ⟨res, st⟩
  rw [ha] at h
  cases res with
  | ok rres =>
    have h' : (Except.ok rres, st) = ((Except.ok r : Except ApiError ReportResult), t) := h
    injection h' with he hs
    injection he with he
    subst he
    exact getReportAttempt_ok_shape env fuel req s rres st ha
  | error e =>
    cases e with
    | sampling =>
      exact Or.inl (getReportFromAPI_ok_shape env (dr0 req) fuel
        { req with samplingLevel := smallSamplingLevel } st r t h)
    | cacheRead => simp at h
    | webVitals c => simp at h
    | http c m => simp at h
    | outOfFuel => simp at h

/-- Witness for C8's amended statement on a concrete forced-small run. -/
theorem c8_amended_witness :
    getReport envSampled 2 reqSmall St.init =
        (.ok resNetSmall, (getReport envSampled 2 reqSmall St.init).2) ∧
      ((resNetSmall.source = some srcNetwork ∧
          ∃ b, resNetSmall.isSampled = some b) ∨
        (resNetSmall.isSampled = none ∧
          (resNetSmall.source = some srcCache ∨
            resNetSmall.source = some srcNetwork ∨
            resNetSmall.source = some srcMixed ∨
            (resNetSmall.source = none ∧ resNetSmall.rows = [])))) :=
  ⟨by decide,
    c8_amended envSampled 2 reqSmall St.init resNetSmall
      (getReport envSampled 2 reqSmall St.init).2 (by decide)⟩
